import Mathlib

/-!
# Verification of the translation-change reconciliation engine

This file is a shallow embedding, in Lean 4, of the core logic of
`scripts/translation-pr-checks/check_new_string_translations.py` and
`scripts/translation-pr-checks/localization_utils.py`: the change
detector, the locale coverage evaluator (missing / needs-review checks),
the resource parsers' error-recovery wrappers, and the issue aggregator
(`format_issues`), together with proofs of the specified properties.

Decoded JSON / property-list data (as produced by Python's `json.loads`
and `plistlib.loads`) is modelled by the inductive type `JValue`;
decoded Python dictionaries are association lists (their keys are
distinct, and lookup is by first match).  Python `set` values that the
script iterates over (the changed-key set, the required-locale set) are
modelled as duplicate-free lists together with an explicit enumeration
order, so that run-to-run iteration-order variation can be reasoned
about.  Python string comparison (`sorted`, `<`) is code-point
lexicographic; it is modelled by the executable order `strLe` below.
-/

/-- Decoded JSON / plist data, as produced by Python's `json.loads` and
`plistlib.loads`: `null`, booleans, numbers, strings, arrays and
(ordered) dictionaries. -/
inductive JValue where
  | jnull : JValue
  | jbool : Bool → JValue
  | jnum : Int → JValue
  | jstr : String → JValue
  | jarr : List JValue → JValue
  | jobj : List (String × JValue) → JValue

namespace JValue

mutual

/-- Decidable equality on decoded values (Python `==` / `!=` on decoded
JSON data, with dictionaries compared as ordered association lists). -/
def decEq : (a b : JValue) → Decidable (a = b)
  | .jnull, .jnull => isTrue rfl
  | .jbool a, .jbool b =>
      if h : a = b then isTrue (by rw [h]) else isFalse (fun hc => h (by injection hc))
  | .jnum a, .jnum b =>
      if h : a = b then isTrue (by rw [h]) else isFalse (fun hc => h (by injection hc))
  | .jstr a, .jstr b =>
      if h : a = b then isTrue (by rw [h]) else isFalse (fun hc => h (by injection hc))
  | .jarr xs, .jarr ys =>
      match decEqList xs ys with
      | isTrue h => isTrue (by rw [h])
      | isFalse h => isFalse (fun hc => h (by injection hc))
  | .jobj xs, .jobj ys =>
      match decEqFields xs ys with
      | isTrue h => isTrue (by rw [h])
      | isFalse h => isFalse (fun hc => h (by injection hc))
  | .jnull, .jbool _ => isFalse (by intro h; injection h)
  | .jnull, .jnum _ => isFalse (by intro h; injection h)
  | .jnull, .jstr _ => isFalse (by intro h; injection h)
  | .jnull, .jarr _ => isFalse (by intro h; injection h)
  | .jnull, .jobj _ => isFalse (by intro h; injection h)
  | .jbool _, .jnull => isFalse (by intro h; injection h)
  | .jbool _, .jnum _ => isFalse (by intro h; injection h)
  | .jbool _, .jstr _ => isFalse (by intro h; injection h)
  | .jbool _, .jarr _ => isFalse (by intro h; injection h)
  | .jbool _, .jobj _ => isFalse (by intro h; injection h)
  | .jnum _, .jnull => isFalse (by intro h; injection h)
  | .jnum _, .jbool _ => isFalse (by intro h; injection h)
  | .jnum _, .jstr _ => isFalse (by intro h; injection h)
  | .jnum _, .jarr _ => isFalse (by intro h; injection h)
  | .jnum _, .jobj _ => isFalse (by intro h; injection h)
  | .jstr _, .jnull => isFalse (by intro h; injection h)
  | .jstr _, .jbool _ => isFalse (by intro h; injection h)
  | .jstr _, .jnum _ => isFalse (by intro h; injection h)
  | .jstr _, .jarr _ => isFalse (by intro h; injection h)
  | .jstr _, .jobj _ => isFalse (by intro h; injection h)
  | .jarr _, .jnull => isFalse (by intro h; injection h)
  | .jarr _, .jbool _ => isFalse (by intro h; injection h)
  | .jarr _, .jnum _ => isFalse (by intro h; injection h)
  | .jarr _, .jstr _ => isFalse (by intro h; injection h)
  | .jarr _, .jobj _ => isFalse (by intro h; injection h)
  | .jobj _, .jnull => isFalse (by intro h; injection h)
  | .jobj _, .jbool _ => isFalse (by intro h; injection h)
  | .jobj _, .jnum _ => isFalse (by intro h; injection h)
  | .jobj _, .jstr _ => isFalse (by intro h; injection h)
  | .jobj _, .jarr _ => isFalse (by intro h; injection h)

/-- Decidable equality on decoded arrays. -/
def decEqList : (xs ys : List JValue) → Decidable (xs = ys)
  | [], [] => isTrue rfl
  | [], _ :: _ => isFalse (by intro h; injection h)
  | _ :: _, [] => isFalse (by intro h; injection h)
  | x :: xs, y :: ys =>
      match decEq x y with
      | isFalse h => isFalse (fun hc => h (by injection hc))
      | isTrue h1 =>
        match decEqList xs ys with
        | isTrue h2 => isTrue (by rw [h1, h2])
        | isFalse h2 => isFalse (fun hc => h2 (by injection hc))

/-- Decidable equality on decoded dictionaries (association lists). -/
def decEqFields : (xs ys : List (String × JValue)) → Decidable (xs = ys)
  | [], [] => isTrue rfl
  | [], _ :: _ => isFalse (by intro h; injection h)
  | _ :: _, [] => isFalse (by intro h; injection h)
  | (k, v) :: xs, (l, w) :: ys =>
      if hk : k = l then
        match decEq v w with
        | isFalse h => isFalse (fun hc => by
            injection hc with h1 h2
            exact h (congrArg Prod.snd h1))
        | isTrue h1 =>
          match decEqFields xs ys with
          | isTrue h2 => isTrue (by rw [hk, h1, h2])
          | isFalse h2 => isFalse (fun hc => h2 (by injection hc))
      else
        isFalse (fun hc => by
          injection hc with h1 h2
          exact hk (congrArg Prod.fst h1))

end

instance : DecidableEq JValue := decEq

end JValue

/-! ## Code-point lexicographic string order (Python `sorted` on strings) -/

/-- Code-point lexicographic comparison of character lists. -/
def charListLe : List Char → List Char → Bool
  | [], _ => true
  | _ :: _, [] => false
  | a :: as, b :: bs =>
    if a < b then true
    else if b < a then false
    else charListLe as bs

/-- Code-point lexicographic order on strings: the order used by Python's
`sorted` on string lists. -/
def strLe (a b : String) : Bool := charListLe a.data b.data

/-- `strLe` as a binary relation, for use with `List.insertionSort`. -/
abbrev SLe (a b : String) : Prop := strLe a b = true

instance : DecidableRel SLe := fun _ _ => inferInstance

/-! ## Decoded-dictionary operations (Python `dict` on decoded data) -/

/-- Lookup in a decoded dictionary (Python `d.get(k)` / `d[k]`; decoded
dictionaries have distinct keys, so first match is the match). -/
def dictFind {α : Type} (d : List (String × α)) (k : String) : Option α :=
  match d with
  | [] => none
  | (k', v) :: rest => if k' = k then some v else dictFind rest k

/-- The key list of a decoded dictionary (Python `d.keys()`). -/
def dictKeys {α : Type} (d : List (String × α)) : List String := d.map (·.1)

namespace JValue

/-- Python `isinstance(v, dict)` on a decoded value. -/
def isDict : JValue → Bool
  | .jobj _ => true
  | _ => false

/-- The fields of a decoded value assumed to be a dictionary (Python code
that calls `.keys()` / iterates on it would raise on any other value;
theorems about such call sites carry a well-formedness hypothesis). -/
def asDict : JValue → List (String × JValue)
  | .jobj fs => fs
  | _ => []

end JValue

/-- Python `v.get(k, default)` on a decoded value assumed to be a
dictionary.  On a non-dictionary value Python raises `AttributeError`;
this embedding returns the default there, and every theorem about a call
site that Python does not guard with `isinstance` carries a
well-formedness hypothesis putting the input in the source's domain. -/
def pyGet (v : JValue) (k : String) (default : JValue) : JValue :=
  match v with
  | .jobj fs => (dictFind fs k).getD default
  | _ => default

/-- Python `v.get(k)` (default `None`) on a decoded value assumed to be a
dictionary; same domain caveat as `pyGet`. -/
def pyGetOpt (v : JValue) (k : String) : Option JValue :=
  match v with
  | .jobj fs => dictFind fs k
  | _ => none


/-! ## Embedded source functions: `.xcstrings` catalog handling -/

/-- Issue kind constant `ISSUE_TYPE_MISSING` of the source. -/
def ISSUE_TYPE_MISSING : String := "missing"

/-- Issue kind constant `ISSUE_TYPE_NEEDS_REVIEW` of the source. -/
def ISSUE_TYPE_NEEDS_REVIEW : String := "needs_review"

/-- A `TranslationIssue` of the source: `(file_path, string_key,
locale_set, issue_type)`.  The locale set is a Python `set` built by
iterating the required-locale set; it is carried here as the list of its
elements in that iteration order. -/
abbrev TranslationIssue := String × String × List String × String

/-- A decoded top-level resource dictionary. -/
abbrev JDict := List (String × JValue)

/-- Embeds `get_string_unit_value`: extract the source (English) string
value from a `.xcstrings` string entry, i.e.
`localizations["en"]["stringUnit"]["value"]`, falling back to `""`
whenever an intermediate node is absent or not a dictionary.  Python
returns the raw `"value"` field, which need not be a string, so the
result is a `JValue`. -/
def get_string_unit_value (string_entry : JValue) : JValue :=
  if string_entry.isDict then
    let localizations := pyGet string_entry "localizations" (.jobj [])
    if localizations.isDict then
      let en_localization := pyGet localizations "en" (.jobj [])
      if en_localization.isDict then
        let string_unit := pyGet en_localization "stringUnit" (.jobj [])
        if string_unit.isDict then pyGet string_unit "value" (.jstr "")
        else .jstr ""
      else .jstr ""
    else .jstr ""
  else .jstr ""

/-- Embeds `get_string_unit_state`: extract `stringUnit["state"]` from a
per-locale localization entry (`None` when absent or when an
intermediate node is not a dictionary). -/
def get_string_unit_state (localization_entry : JValue) : Option JValue :=
  if localization_entry.isDict then
    let string_unit := pyGet localization_entry "stringUnit" (.jobj [])
    if string_unit.isDict then pyGetOpt string_unit "state"
    else none
  else none

/-- Embeds `get_changed_string_keys`: keys of `new_data["strings"]`
absent from `old_data["strings"]`, together with keys present in both
whose entries are both dictionaries and whose extracted English source
values differ.  (The source calls `.keys()` on the two `strings`
values, so its domain has them as dictionaries.) -/
def get_changed_string_keys (old_data new_data : JDict) : List String :=
  let old_strings := ((dictFind old_data "strings").getD (.jobj [])).asDict
  let new_strings := ((dictFind new_data "strings").getD (.jobj [])).asDict
  let old_keys := dictKeys old_strings
  let new_keys := dictKeys new_strings
  (new_keys.filter (fun k => decide (k ∉ old_keys))) ++
    ((old_keys.filter (fun k => decide (k ∈ new_keys))).filter (fun key =>
      let old_value := (dictFind old_strings key).getD (.jobj [])
      let new_value := (dictFind new_strings key).getD (.jobj [])
      decide (old_value.isDict = true ∧ new_value.isDict = true ∧
        get_string_unit_value old_value ≠ get_string_unit_value new_value)))

/-- Python `value.get("shouldTranslate") is False` on a string entry:
true exactly when the field is present and is the boolean `False`. -/
def shouldTranslateIsFalse (value : JValue) : Bool :=
  match pyGetOpt value "shouldTranslate" with
  | some (.jbool false) => true
  | _ => false

/-- The per-key inner loop of
`check_xcstrings_strings_missing_translations`: the required locales
(in iteration order) whose per-locale entry is not a dictionary, or
whose `stringUnit` state is neither `"translated"` nor
`"needs_review"`. -/
def xcstringsMissingLocales (value : JValue) (required_locales : List String) :
    List String :=
  let localizations := pyGet value "localizations" (.jobj [])
  required_locales.filter (fun locale =>
    let loc_data := pyGet localizations locale (.jobj [])
    if loc_data.isDict = false then true
    else
      let state := get_string_unit_state loc_data
      decide (state ≠ some (.jstr "translated") ∧ state ≠ some (.jstr "needs_review")))

/-- Embeds `check_xcstrings_strings_missing_translations`.
`changed_keys` is the changed-key set in the iteration order of one run.
A changed key whose entry is not a dictionary, or whose
`shouldTranslate` is the boolean `False`, is skipped; otherwise a
`missing` issue is emitted iff the missing-locale set is non-empty. -/
def check_xcstrings_strings_missing_translations (file_path : String)
    (current_data : JDict) (required_locales : List String)
    (changed_keys : List String) : List TranslationIssue :=
  if changed_keys.isEmpty then []
  else
    let strings := pyGet (.jobj current_data) "strings" (.jobj [])
    changed_keys.filterMap (fun key =>
      let value := pyGet strings key (.jobj [])
      if value.isDict = false ∨ shouldTranslateIsFalse value then none
      else
        let missing_locales := xcstringsMissingLocales value required_locales
        if missing_locales.isEmpty then none
        else some (file_path, key, missing_locales, ISSUE_TYPE_MISSING))

/-- The per-key inner loop of `check_xcstrings_needs_review`: the
required locales (in iteration order) whose current per-locale entry is
a dictionary in state `"needs_review"`, excluding those whose state at
the base revision for the same key was already `"needs_review"` (a
non-dictionary base entry does not suppress). -/
def xcstringsNeedsReviewLocales (value : JValue) (base_strings : JValue)
    (key : String) (required_locales : List String) : List String :=
  let localizations := pyGet value "localizations" (.jobj [])
  required_locales.filter (fun locale =>
    let loc_data := pyGet localizations locale (.jobj [])
    if loc_data.isDict = false then false
    else if get_string_unit_state loc_data = some (.jstr "needs_review") then
      let base_value := pyGet base_strings key (.jobj [])
      if base_value.isDict then
        let base_localizations := pyGet base_value "localizations" (.jobj [])
        let base_loc_data := pyGet base_localizations locale (.jobj [])
        decide (get_string_unit_state base_loc_data ≠ some (.jstr "needs_review"))
      else true
    else false)

/-- Embeds `check_xcstrings_needs_review`: for each changed key whose
entry is a dictionary with `shouldTranslate` not the boolean `False`, a
`needs_review` issue is emitted iff the newly-needs-review locale set is
non-empty. -/
def check_xcstrings_needs_review (file_path : String)
    (current_data base_data : JDict) (required_locales : List String)
    (changed_keys : List String) : List TranslationIssue :=
  if changed_keys.isEmpty then []
  else
    let current_strings := pyGet (.jobj current_data) "strings" (.jobj [])
    let base_strings := pyGet (.jobj base_data) "strings" (.jobj [])
    changed_keys.filterMap (fun key =>
      let value := pyGet current_strings key (.jobj [])
      if value.isDict = false then none
      else if shouldTranslateIsFalse value then none
      else
        let needs_review_locales :=
          xcstringsNeedsReviewLocales value base_strings key required_locales
        if needs_review_locales.isEmpty then none
        else some (file_path, key, needs_review_locales, ISSUE_TYPE_NEEDS_REVIEW))

/-! ## Embedded source functions: flat (`.strings`) and plural
(`.stringsdict`) change detection and coverage -/

/-- Changed-key computation shared verbatim by the flat-format check
(`check_strings_translations`) and the plural-format check
(`check_stringsdict_translations`): keys of `current` absent from
`base`, united with keys present in both whose values differ.  The
value type is `String` for the flat format and the decoded plural
dictionary (`JValue`) for the plural format; both are compared with
Python `!=`. -/
def changedKeysOf {α : Type} [DecidableEq α] (current base : List (String × α)) :
    List String :=
  let current_keys := dictKeys current
  let base_keys := dictKeys base
  (current_keys.filter (fun k => decide (k ∉ base_keys))) ++
    ((current_keys.filter (fun k => decide (k ∈ base_keys))).filter (fun key =>
      decide (dictFind current key ≠ dictFind base key)))

/-- The pure core of `check_strings_translations` (after file reading
and parsing): compute the changed keys of the English flat file and
emit, for each, a `missing` issue listing the required locales whose
parsed sibling file (given by `locale_strings_cache`, empty for a
missing file) does not contain the key. -/
def check_strings_translations_core (en_file_path : String)
    (current_strings base_strings : List (String × String))
    (required_locales : List String)
    (locale_strings_cache : String → List (String × String)) :
    List TranslationIssue :=
  let changed_keys := changedKeysOf current_strings base_strings
  if changed_keys.isEmpty then []
  else
    changed_keys.filterMap (fun key =>
      let missing_locales := required_locales.filter (fun locale =>
        decide (key ∉ dictKeys (locale_strings_cache locale)))
      if missing_locales.isEmpty then none
      else some (en_file_path, key, missing_locales, ISSUE_TYPE_MISSING))

/-- The pure core of `check_stringsdict_translations` (after file
reading and parsing): compute the changed keys of the English plural
file (full nested values compared) and emit, for each, a `missing`
issue listing the required locales whose sibling file's key set (given
by `locale_keys_cache`, empty for a missing file) does not contain the
key. -/
def check_stringsdict_translations_core (en_file_path : String)
    (current_data base_data : List (String × JValue))
    (required_locales : List String)
    (locale_keys_cache : String → List String) : List TranslationIssue :=
  let changed_keys := changedKeysOf current_data base_data
  if changed_keys.isEmpty then []
  else
    changed_keys.filterMap (fun key =>
      let missing_locales := required_locales.filter (fun locale =>
        decide (key ∉ locale_keys_cache locale))
      if missing_locales.isEmpty then none
      else some (en_file_path, key, missing_locales, ISSUE_TYPE_MISSING))

/-! ## Embedded source functions: resource parsers
(`localization_utils.py`)

The parsers wrap external decoders (`json.loads`, `plistlib.loads`,
`re.finditer`), which are modelled as opaque functions.  `json.loads`
on a string fails only with `json.JSONDecodeError`, which
`parse_xcstrings` catches, so an `Option`-valued decoder (`none` for
the caught failure) suffices there, and `re.finditer` cannot fail.
`plistlib.loads`, however, can fail in two ways the source treats
differently: with one of the exception types its `except` clause lists
(`plistlib.InvalidFileException`, `ValueError`, `TypeError`), which are
swallowed, or with an exception outside that tuple — notably
`xml.parsers.expat.ExpatError` on content that starts with an XML
plist prefix but is malformed XML — which propagates out of the
parser.  The plist decoder therefore yields a three-outcome
`PlistDecodeResult`, and the two `.stringsdict` parsers return an
`Option`, `none` modelling the exception escaping the function. -/

/-- Python dictionary assignment `result[key] = value`: overwrite in
place, or append a new key at the end. -/
def dictSet {α : Type} (d : List (String × α)) (k : String) (v : α) :
    List (String × α) :=
  match d with
  | [] => [(k, v)]
  | (k', v') :: rest => if k' = k then (k, v) :: rest else (k', v') :: dictSet rest k v

/-- Embeds `parse_xcstrings`: empty content or a JSON decode error
yields the canonical empty catalog `{"strings": {}}`; otherwise the
decoded value is returned unchanged. -/
def parse_xcstrings (jsonDecode : String → Option JValue) (content : String) :
    JValue :=
  if content = "" then .jobj [("strings", .jobj [])]
  else
    match jsonDecode content with
    | some v => v
    | none => .jobj [("strings", .jobj [])]

/-- Embeds `parse_strings_file`: empty content yields the empty
dictionary; otherwise the `"key" = "value";` pairs found by the regular
expression (modelled by the opaque `reMatches`) are folded into a
dictionary, later occurrences of a key overwriting earlier ones. -/
def parse_strings_file (reMatches : String → List (String × String))
    (content : String) : List (String × String) :=
  if content = "" then []
  else (reMatches content).foldl (fun result kv => dictSet result kv.1 kv.2) []

/-- Outcome of a `plistlib.loads` call: a decoded value; a failure of
one of the types the source's `except` clause lists
(`plistlib.InvalidFileException`, `ValueError`, `TypeError`); or a
failure outside that tuple — notably `xml.parsers.expat.ExpatError`,
raised for content whose prefix selects the XML plist parser (for
example `"<plist><dict>"`) but which is malformed XML — which the
`except` clause does not match. -/
inductive PlistDecodeResult where
  | ok : JValue → PlistDecodeResult
  | caughtErr : PlistDecodeResult
  | uncaughtErr : PlistDecodeResult

/-- Embeds `parse_stringsdict_file`: the key set of the decoded plist
dictionary.  Empty content, a caught decode failure, or a
non-dictionary decode result yields the empty set; a decode failure
outside the caught tuple propagates out of the function (`none`). -/
def parse_stringsdict_file (plistDecode : String → PlistDecodeResult)
    (content : String) : Option (List String) :=
  if content = "" then some []
  else
    match plistDecode content with
    | .ok (.jobj fs) => some (dictKeys fs)
    | .ok _ => some []
    | .caughtErr => some []
    | .uncaughtErr => none

/-- Embeds `parse_stringsdict_file_full`: the decoded plist dictionary
itself.  Empty content, a caught decode failure, or a non-dictionary
decode result yields the empty dictionary; a decode failure outside
the caught tuple propagates out of the function (`none`). -/
def parse_stringsdict_file_full (plistDecode : String → PlistDecodeResult)
    (content : String) : Option (List (String × JValue)) :=
  if content = "" then some []
  else
    match plistDecode content with
    | .ok (.jobj fs) => some fs
    | .ok _ => some []
    | .caughtErr => some []
    | .uncaughtErr => none

/-! ## Embedded source functions: issue aggregator (`format_issues`) -/

/-- A per-file issue record inside `format_issues`'s `by_file` table:
`(string_key, locale_set, issue_type)`. -/
abbrev FileIssue := String × List String × String

/-- Python's `sorted` on a list of strings (code-point lexicographic,
stable — on string lists any correct sort). -/
def sortStrings (l : List String) : List String := List.insertionSort SLe l

/-- The by-key order used by `sorted(file_issues, key=lambda x: x[0])`. -/
abbrev KeyLe (a b : FileIssue) : Prop := SLe a.1 b.1

instance : DecidableRel KeyLe := fun _ _ => inferInstance

/-- Python's stable `sorted(file_issues, key=lambda x: x[0])`:
`List.insertionSort` is stable for `KeyLe`, matching Timsort. -/
def sortFileIssues (l : List FileIssue) : List FileIssue := List.insertionSort KeyLe l

/-- The displayed key: keys longer than 50 characters are truncated to
their first 47 characters plus `"..."`, for presentation only. -/
def display_key_of (key : String) : String :=
  if key.length ≤ 50 then key else key.take 47 ++ "..."

/-- Python set equality `locales == required_locales` on the two locale
sets, carried as element lists. -/
def localeSetEqb (locales required_locales : List String) : Bool :=
  decide ((∀ x ∈ locales, x ∈ required_locales) ∧
    (∀ x ∈ required_locales, x ∈ locales))

/-- The locale column: the compact `"All N languages"` label when the
issue's locale set equals the full required set (`N` being the size of
the required set), otherwise the alphabetically sorted, comma-separated
locale codes. -/
def locale_display_of (locales required_locales : List String) : String :=
  if localeSetEqb locales required_locales then
    "All " ++ toString required_locales.length ++ " languages"
  else
    String.intercalate ", " (sortStrings locales)

/-- The status label of an issue line. -/
def status_label_of (issue_type : String) : String :=
  if issue_type = ISSUE_TYPE_MISSING then "Missing translations" else "Needs review"

/-- The two output lines `format_issues` produces for one issue. -/
def format_entry_lines (required_locales : List String) (e : FileIssue) :
    List String :=
  ["   • Key: " ++ display_key_of e.1,
   "     " ++ status_label_of e.2.2 ++ ": " ++ locale_display_of e.2.1 required_locales]

/-- First-occurrence deduplication, skipping keys already seen: helper
for `dedupFirst`. -/
def dedupFirstFrom (seen : List String) : List String → List String
  | [] => []
  | p :: rest =>
    if p ∈ seen then dedupFirstFrom seen rest
    else p :: dedupFirstFrom (p :: seen) rest

/-- First-occurrence deduplication: the key list of the `by_file`
dictionary in its insertion order. -/
def dedupFirst (l : List String) : List String := dedupFirstFrom [] l

/-- The `by_file[file_path]` bucket: the records of the issues with
this file path, in issue-list order. -/
def issuesForFile (issues : List TranslationIssue) (file_path : String) :
    List FileIssue :=
  (issues.filter (fun i => decide (i.1 = file_path))).map
    (fun i => (i.2.1, i.2.2.1, i.2.2.2))

/-- Embeds `format_issues`: group the issues by file path, emit the
files in sorted order (`sorted(by_file.items())` compares the distinct
file paths first, so it is a sort of the path list), each followed by
its issues stably sorted by key, two lines per issue; join everything
with newlines.  An empty issue list yields the empty string. -/
def format_issues (issues : List TranslationIssue) (required_locales : List String) :
    String :=
  if issues.isEmpty then ""
  else
    let files := sortStrings (dedupFirst (issues.map (·.1)))
    let lines := "❌ Untranslated strings found:" ::
      files.flatMap (fun file_path =>
        ("\nFile: " ++ file_path) ::
          (sortFileIssues (issuesForFile issues file_path)).flatMap
            (format_entry_lines required_locales))
    String.intercalate "\n" lines

/-! ## Embedded source functions: `.xcstrings` per-file pipeline -/

/-- The per-file body of `check_xcstrings_files`: when the changed-key
set is non-empty, the missing-translation issues followed by the
needs-review issues.  `changed_keys` is the changed-key set in one
run's iteration order. -/
def checkXcstringsFileIssues (file_path : String) (base_data current_data : JDict)
    (required_locales changed_keys : List String) : List TranslationIssue :=
  if changed_keys.isEmpty then []
  else
    check_xcstrings_strings_missing_translations file_path current_data
        required_locales changed_keys ++
      check_xcstrings_needs_review file_path current_data base_data
        required_locales changed_keys

/-- Embeds the loop of `check_xcstrings_files` over the changed
`.xcstrings` files (each given as `(file_path, base_data,
current_data)`, in the deterministic changed-file order), with
`keyOrder` giving the iteration order of each file's changed-key set in
this run. -/
def check_xcstrings_files (files : List (String × JDict × JDict))
    (required_locales : List String) (keyOrder : String → List String) :
    List TranslationIssue :=
  files.flatMap (fun f =>
    checkXcstringsFileIssues f.1 f.2.1 f.2.2 required_locales (keyOrder f.1))

/-! ## Views of the nested catalog structure

Definitional compositions of the embedded lookups, naming the
expressions the source computes step by step (`strings =
current_data.get("strings", {})`, `value = strings.get(key, {})`,
`loc_data = localizations.get(locale, {})`). -/

/-- The entry of `key` in `data["strings"]` (default `{}`). -/
def catalogEntryOf (data : JDict) (key : String) : JValue :=
  pyGet (pyGet (.jobj data) "strings" (.jobj [])) key (.jobj [])

/-- The per-locale localization entry of a string entry (default `{}`). -/
def localeEntryOf (value : JValue) (locale : String) : JValue :=
  pyGet (pyGet value "localizations" (.jobj [])) locale (.jobj [])

/-- The per-locale `stringUnit` state of a string entry. -/
def localeStateOf (value : JValue) (locale : String) : Option JValue :=
  get_string_unit_state (localeEntryOf value locale)

/-- The `strings` dictionary a catalog snapshot iterates over in
`get_changed_string_keys` (`old_data.get("strings", {})`, whose keys the
source enumerates). -/
def stringsDictOf (data : JDict) : JDict :=
  ((dictFind data "strings").getD (.jobj [])).asDict

/-- The entry of `key` in a catalog snapshot's `strings` dictionary
(`old_strings.get(key, {})`). -/
def stringsEntryOf (data : JDict) (key : String) : JValue :=
  (dictFind (stringsDictOf data) key).getD (.jobj [])

/-! ## Auxiliary notions for the determinism analysis

Python iterates its `set` values in an order that varies from run to run
(string hashing is randomized per process); the definitions below name
the canonical data that is invariant under that order, for the proof
that the formatted output is. -/

/-- The `by_file` record of an issue (its file-path component dropped). -/
def issueRec (i : TranslationIssue) : FileIssue := (i.2.1, i.2.2.1, i.2.2.2)

/-- Canonical form of a per-file issue record: its locale set listed in
sorted order. -/
def canonRec (e : FileIssue) : FileIssue := (e.1, sortStrings e.2.1, e.2.2)

/-- Rank of an issue kind inside one file's bucket: the missing issues
of a key are appended before its needs-review issue, so `missing`
records sort (stably) before `needs_review` records of the same key. -/
def rankOf (ty : String) : Nat := if ty = ISSUE_TYPE_MISSING then 0 else 1

/-- The lexicographic (key, kind) order: the canonical total order that
the stable by-key sort realizes on one file's bucket. -/
def LexLe (a b : FileIssue) : Prop :=
  (SLe a.1 b.1 ∧ a.1 ≠ b.1) ∨ (a.1 = b.1 ∧ rankOf a.2.2 ≤ rankOf b.2.2)

instance : DecidableRel LexLe := fun a b => by
  unfold LexLe
  exact inferInstance

/-! ## Properties of the string order -/

theorem charListLe_total : ∀ as bs, charListLe as bs = true ∨ charListLe bs as = true
  | [], _ => Or.inl rfl
  | _ :: _, [] => Or.inr rfl
  | a :: as, b :: bs => by
    rcases lt_trichotomy a b with h | h | h
    · left; simp [charListLe, h]
    · subst h
      have ih := charListLe_total as bs
      simpa [charListLe, lt_irrefl] using ih
    · right; simp [charListLe, h]

theorem charListLe_trans : ∀ as bs cs, charListLe as bs = true → charListLe bs cs = true →
    charListLe as cs = true
  | [], _, _ => by intro _ _; rfl
  | _ :: _, [], _ => by intro h; simp [charListLe] at h
  | _ :: _, _ :: _, [] => by intro _ h; simp [charListLe] at h
  | a :: as, b :: bs, c :: cs => by
    intro h1 h2
    simp only [charListLe] at h1 h2 ⊢
    rcases lt_trichotomy a b with hab | hab | hab
    · rcases lt_trichotomy b c with hbc | hbc | hbc
      · simp [lt_trans hab hbc]
      · subst hbc; simp [hab]
      · rcases lt_trichotomy a c with hac | hac | hac
        · simp [hac]
        · subst hac; simp [hbc, not_lt_of_gt hbc] at h2
        · simp [hbc, not_lt_of_gt hbc] at h2
    · subst hab
      rcases lt_trichotomy a c with hac | hac | hac
      · simp [hac]
      · subst hac
        simp [lt_irrefl] at h1 h2 ⊢
        exact charListLe_trans as bs cs h1 h2
      · simp [not_lt_of_gt hac, hac] at h2
    · simp [not_lt_of_gt hab, hab] at h1

theorem charListLe_antisymm : ∀ as bs, charListLe as bs = true → charListLe bs as = true →
    as = bs
  | [], [] => fun _ _ => rfl
  | [], _ :: _ => by intro _ h; simp [charListLe] at h
  | _ :: _, [] => by intro h _; simp [charListLe] at h
  | a :: as, b :: bs => by
    intro h1 h2
    rcases lt_trichotomy a b with h | h | h
    · simp [charListLe, not_lt_of_gt h, h] at h2
    · subst h
      simp [charListLe, lt_irrefl] at h1 h2
      rw [charListLe_antisymm as bs h1 h2]
    · simp [charListLe, not_lt_of_gt h, h] at h1

theorem strLe_total : ∀ a b : String, SLe a b ∨ SLe b a := fun a b =>
  charListLe_total a.data b.data

theorem strLe_trans {a b c : String} : SLe a b → SLe b c → SLe a c :=
  charListLe_trans a.data b.data c.data

theorem strLe_antisymm {a b : String} : SLe a b → SLe b a → a = b := fun h1 h2 =>
  String.ext (charListLe_antisymm a.data b.data h1 h2)

/-! ## Characterization lemmas for the coverage checks -/

theorem get_string_unit_state_of_not_dict {v : JValue} (h : v.isDict = false) :
    get_string_unit_state v = none := by
  unfold get_string_unit_state
  simp [h]

theorem missing_filter_cond (v : JValue) :
    (if v.isDict = false then true
     else decide (get_string_unit_state v ≠ some (.jstr "translated") ∧
       get_string_unit_state v ≠ some (.jstr "needs_review"))) = true ↔
      (get_string_unit_state v ≠ some (.jstr "translated") ∧
        get_string_unit_state v ≠ some (.jstr "needs_review")) := by
  by_cases hd : v.isDict = false
  · simp [hd, get_string_unit_state_of_not_dict hd]
  · simp [hd]

theorem mem_xcstringsMissingLocales {value : JValue} {required_locales : List String}
    {locale : String} :
    locale ∈ xcstringsMissingLocales value required_locales ↔
      locale ∈ required_locales ∧
        localeStateOf value locale ≠ some (.jstr "translated") ∧
        localeStateOf value locale ≠ some (.jstr "needs_review") := by
  simp only [xcstringsMissingLocales, localeStateOf, localeEntryOf, List.mem_filter]
  exact and_congr_right fun _ => missing_filter_cond _

theorem review_filter_cond (value base_strings : JValue) (key locale : String) :
    (let loc_data := pyGet (pyGet value "localizations" (.jobj [])) locale (.jobj [])
     if loc_data.isDict = false then false
     else if get_string_unit_state loc_data = some (.jstr "needs_review") then
       let base_value := pyGet base_strings key (.jobj [])
       if base_value.isDict then
         decide (get_string_unit_state
           (pyGet (pyGet base_value "localizations" (.jobj [])) locale (.jobj [])) ≠
             some (.jstr "needs_review"))
       else true
     else false) = true ↔
      (localeStateOf value locale = some (.jstr "needs_review") ∧
        ((pyGet base_strings key (.jobj [])).isDict = true →
          get_string_unit_state
            (pyGet (pyGet (pyGet base_strings key (.jobj [])) "localizations" (.jobj []))
              locale (.jobj [])) ≠ some (.jstr "needs_review"))) := by
  simp only [localeStateOf, localeEntryOf]
  by_cases hd : (pyGet (pyGet value "localizations" (.jobj [])) locale (.jobj [])).isDict
      = false
  · simp [hd, get_string_unit_state_of_not_dict hd]
  · by_cases hs : get_string_unit_state
        (pyGet (pyGet value "localizations" (.jobj [])) locale (.jobj [])) =
          some (.jstr "needs_review")
    · by_cases hb : (pyGet base_strings key (.jobj [])).isDict = true
      · simp [hd, hs, hb]
      · simp [hd, hs, hb]
    · simp [hd, hs]

theorem mem_xcstringsNeedsReviewLocales {value base_strings : JValue} {key : String}
    {required_locales : List String} {locale : String} :
    locale ∈ xcstringsNeedsReviewLocales value base_strings key required_locales ↔
      locale ∈ required_locales ∧
        localeStateOf value locale = some (.jstr "needs_review") ∧
        ((pyGet base_strings key (.jobj [])).isDict = true →
          get_string_unit_state
            (pyGet (pyGet (pyGet base_strings key (.jobj [])) "localizations" (.jobj []))
              locale (.jobj [])) ≠ some (.jstr "needs_review")) := by
  simp only [xcstringsNeedsReviewLocales, List.mem_filter]
  exact and_congr_right fun _ => review_filter_cond value base_strings key locale

theorem mem_missing_check {file_path : String} {current_data : JDict}
    {required_locales changed_keys : List String} {i : TranslationIssue} :
    i ∈ check_xcstrings_strings_missing_translations file_path current_data
        required_locales changed_keys ↔
      ∃ key, key ∈ changed_keys ∧ (catalogEntryOf current_data key).isDict = true ∧
        shouldTranslateIsFalse (catalogEntryOf current_data key) = false ∧
        xcstringsMissingLocales (catalogEntryOf current_data key) required_locales ≠ [] ∧
        i = (file_path, key,
          xcstringsMissingLocales (catalogEntryOf current_data key) required_locales,
          ISSUE_TYPE_MISSING) := by
  unfold check_xcstrings_strings_missing_translations
  cases hE : changed_keys.isEmpty
  · simp only [hE, Bool.false_eq_true, if_false, List.mem_filterMap]
    apply exists_congr
    intro key
    constructor
    · rintro ⟨hmem, hsome⟩
      simp only [catalogEntryOf] at *
      by_cases hcond : (pyGet (pyGet (.jobj current_data) "strings" (.jobj [])) key
          (.jobj [])).isDict = false ∨
          shouldTranslateIsFalse (pyGet (pyGet (.jobj current_data) "strings" (.jobj []))
            key (.jobj [])) = true
      · rw [if_pos hcond] at hsome
        exact absurd hsome (by simp)
      · rw [if_neg hcond] at hsome
        push_neg at hcond
        obtain ⟨h1, h2⟩ := hcond
        cases hM : (xcstringsMissingLocales (pyGet (pyGet (.jobj current_data) "strings"
            (.jobj [])) key (.jobj [])) required_locales).isEmpty
        · rw [hM] at hsome
          simp only [Bool.false_eq_true, if_false, Option.some.injEq] at hsome
          refine ⟨hmem, by simpa using h1, by simpa using h2, ?_, hsome.symm⟩
          intro hnil
          rw [hnil] at hM
          simp at hM
        · rw [hM] at hsome
          simp at hsome
    · rintro ⟨hmem, h1, h2, h3, h4⟩
      refine ⟨hmem, ?_⟩
      simp only [catalogEntryOf] at h1 h2 h3 h4
      rw [if_neg (by simp [h1, h2]), if_neg (by simpa using h3)]
      rw [h4]
  · have : changed_keys = [] := List.isEmpty_iff.mp hE
    subst this
    simp [hE]

theorem mem_review_check {file_path : String} {current_data base_data : JDict}
    {required_locales changed_keys : List String} {i : TranslationIssue} :
    i ∈ check_xcstrings_needs_review file_path current_data base_data
        required_locales changed_keys ↔
      ∃ key, key ∈ changed_keys ∧ (catalogEntryOf current_data key).isDict = true ∧
        shouldTranslateIsFalse (catalogEntryOf current_data key) = false ∧
        xcstringsNeedsReviewLocales (catalogEntryOf current_data key)
          (pyGet (.jobj base_data) "strings" (.jobj [])) key required_locales ≠ [] ∧
        i = (file_path, key,
          xcstringsNeedsReviewLocales (catalogEntryOf current_data key)
            (pyGet (.jobj base_data) "strings" (.jobj [])) key required_locales,
          ISSUE_TYPE_NEEDS_REVIEW) := by
  unfold check_xcstrings_needs_review
  cases hE : changed_keys.isEmpty
  · simp only [hE, Bool.false_eq_true, if_false, List.mem_filterMap]
    apply exists_congr
    intro key
    constructor
    · rintro ⟨hmem, hsome⟩
      simp only [catalogEntryOf] at *
      by_cases h1 : (pyGet (pyGet (.jobj current_data) "strings" (.jobj [])) key
          (.jobj [])).isDict = false
      · rw [if_pos h1] at hsome
        exact absurd hsome (by simp)
      · rw [if_neg h1] at hsome
        by_cases h2 : shouldTranslateIsFalse (pyGet (pyGet (.jobj current_data) "strings"
            (.jobj [])) key (.jobj [])) = true
        · rw [if_pos h2] at hsome
          exact absurd hsome (by simp)
        · rw [if_neg h2] at hsome
          cases hM : (xcstringsNeedsReviewLocales (pyGet (pyGet (.jobj current_data)
              "strings" (.jobj [])) key (.jobj []))
              (pyGet (.jobj base_data) "strings" (.jobj [])) key
              required_locales).isEmpty
          · rw [hM] at hsome
            simp only [Bool.false_eq_true, if_false, Option.some.injEq] at hsome
            refine ⟨hmem, by simpa using h1, by simpa using h2, ?_, hsome.symm⟩
            intro hnil
            rw [hnil] at hM
            simp at hM
          · rw [hM] at hsome
            simp at hsome
    · rintro ⟨hmem, h1, h2, h3, h4⟩
      refine ⟨hmem, ?_⟩
      simp only [catalogEntryOf] at h1 h2 h3 h4
      rw [if_neg (by simp [h1]), if_neg (by simp [h2]), if_neg (by simpa using h3)]
      rw [h4]
  · have : changed_keys = [] := List.isEmpty_iff.mp hE
    subst this
    simp [hE]

theorem mem_changedKeysOf {α : Type} [DecidableEq α] {current base : List (String × α)}
    {k : String} :
    k ∈ changedKeysOf current base ↔
      ((k ∈ dictKeys current ∧ k ∉ dictKeys base) ∨
        (k ∈ dictKeys current ∧ k ∈ dictKeys base ∧
          dictFind current k ≠ dictFind base k)) := by
  simp only [changedKeysOf, List.mem_append, List.mem_filter, decide_eq_true_eq,
    decide_not]
  constructor
  · rintro (⟨h1, h2⟩ | ⟨⟨h1, h2⟩, h3⟩)
    · exact Or.inl ⟨h1, by simpa using h2⟩
    · exact Or.inr ⟨h1, h2, by simpa using h3⟩
  · rintro (⟨h1, h2⟩ | ⟨h1, h2, h3⟩)
    · exact Or.inl ⟨h1, by simpa using h2⟩
    · exact Or.inr ⟨⟨h1, h2⟩, by simpa using h3⟩

theorem mem_strings_core {en_file_path : String}
    {current_strings base_strings : List (String × String)}
    {required_locales : List String}
    {locale_strings_cache : String → List (String × String)} {i : TranslationIssue} :
    i ∈ check_strings_translations_core en_file_path current_strings base_strings
        required_locales locale_strings_cache ↔
      ∃ key, key ∈ changedKeysOf current_strings base_strings ∧
        required_locales.filter
          (fun locale => decide (key ∉ dictKeys (locale_strings_cache locale))) ≠ [] ∧
        i = (en_file_path, key,
          required_locales.filter
            (fun locale => decide (key ∉ dictKeys (locale_strings_cache locale))),
          ISSUE_TYPE_MISSING) := by
  unfold check_strings_translations_core
  cases hE : (changedKeysOf current_strings base_strings).isEmpty
  · simp only [hE, Bool.false_eq_true, if_false, List.mem_filterMap]
    apply exists_congr
    intro key
    constructor
    · rintro ⟨hmem, hsome⟩
      cases hM : (required_locales.filter
          (fun locale => decide (key ∉ dictKeys (locale_strings_cache locale)))).isEmpty
      · rw [hM] at hsome
        simp only [Bool.false_eq_true, if_false, Option.some.injEq] at hsome
        refine ⟨hmem, ?_, hsome.symm⟩
        intro hnil
        rw [hnil] at hM
        simp at hM
      · rw [hM] at hsome
        simp at hsome
    · rintro ⟨hmem, h3, h4⟩
      refine ⟨hmem, ?_⟩
      rw [if_neg (by simpa using h3)]
      rw [h4]
  · have h0 : changedKeysOf current_strings base_strings = [] := List.isEmpty_iff.mp hE
    rw [h0]
    simp [hE, h0]

theorem mem_stringsdict_core {en_file_path : String}
    {current_data base_data : List (String × JValue)}
    {required_locales : List String}
    {locale_keys_cache : String → List String} {i : TranslationIssue} :
    i ∈ check_stringsdict_translations_core en_file_path current_data base_data
        required_locales locale_keys_cache ↔
      ∃ key, key ∈ changedKeysOf current_data base_data ∧
        required_locales.filter
          (fun locale => decide (key ∉ locale_keys_cache locale)) ≠ [] ∧
        i = (en_file_path, key,
          required_locales.filter
            (fun locale => decide (key ∉ locale_keys_cache locale)),
          ISSUE_TYPE_MISSING) := by
  unfold check_stringsdict_translations_core
  cases hE : (changedKeysOf current_data base_data).isEmpty
  · simp only [hE, Bool.false_eq_true, if_false, List.mem_filterMap]
    apply exists_congr
    intro key
    constructor
    · rintro ⟨hmem, hsome⟩
      cases hM : (required_locales.filter
          (fun locale => decide (key ∉ locale_keys_cache locale))).isEmpty
      · rw [hM] at hsome
        simp only [Bool.false_eq_true, if_false, Option.some.injEq] at hsome
        refine ⟨hmem, ?_, hsome.symm⟩
        intro hnil
        rw [hnil] at hM
        simp at hM
      · rw [hM] at hsome
        simp at hsome
    · rintro ⟨hmem, h3, h4⟩
      refine ⟨hmem, ?_⟩
      rw [if_neg (by simpa using h3)]
      rw [h4]
  · have h0 : changedKeysOf current_data base_data = [] := List.isEmpty_iff.mp hE
    rw [h0]
    simp [hE, h0]

/-! ## Claim theorems -/

/-- Claim C1: for the flat (`.strings`) and plural (`.stringsdict`)
formats, the detector's changed-key set is exactly the union of the keys
present in current but absent from base and the keys present in both
whose parsed values differ (exact string equality for the flat format,
structural equality of the decoded nested value for the plural format);
consequently a key present only in current is always in the set and a
key present only in base never is. -/
theorem claim_C1_flat_plural_changed_keys {α : Type} [DecidableEq α]
    (current base : List (String × α)) (k : String) :
    k ∈ changedKeysOf current base ↔
      ((k ∈ dictKeys current ∧ k ∉ dictKeys base) ∨
        (k ∈ dictKeys current ∧ k ∈ dictKeys base ∧
          dictFind current k ≠ dictFind base k)) :=
  mem_changedKeysOf

/-- Witness for claim C1 at a concrete input: a key present only in
current is detected as changed. -/
theorem claim_C1_witness :
    "a" ∈ changedKeysOf [("a", "x")] ([] : List (String × String)) :=
  (claim_C1_flat_plural_changed_keys [("a", "x")] [] "a").mpr
    (Or.inl ⟨by decide, by decide⟩)

/-- Counterexample to claim C2 as stated: the key `"k"` is present in
both snapshots and its English source values — read per the claim's own
rule, which yields `""` for an entry with no `en` localization — differ
(`""` in base, `"X"` in current), yet `get_changed_string_keys` does not
mark the key changed, because it skips any key whose base or current
entry is not a mapping (the base entry here is the scalar `"hello"`). -/
theorem claim_C2_counterexample :
    "k" ∈ dictKeys (stringsDictOf [("strings", JValue.jobj [("k", .jstr "hello")])]) ∧
    "k" ∈ dictKeys (stringsDictOf [("strings", JValue.jobj [("k", .jobj
      [("localizations", .jobj [("en", .jobj
        [("stringUnit", .jobj [("value", .jstr "X")])])])])])]) ∧
    get_string_unit_value
        (stringsEntryOf [("strings", JValue.jobj [("k", .jstr "hello")])] "k") ≠
      get_string_unit_value (stringsEntryOf [("strings", JValue.jobj [("k", .jobj
        [("localizations", .jobj [("en", .jobj
          [("stringUnit", .jobj [("value", .jstr "X")])])])])])] "k") ∧
    "k" ∉ get_changed_string_keys
      [("strings", JValue.jobj [("k", .jstr "hello")])]
      [("strings", JValue.jobj [("k", .jobj
        [("localizations", .jobj [("en", .jobj
          [("stringUnit", .jobj [("value", .jstr "X")])])])])])] := by
  refine ⟨by decide, by decide, by decide, by decide⟩

/-- Claim C2 amended: for the catalog format, a key present in both
snapshots whose base and current entries are both mappings is marked
changed exactly when its English source value (read from
`localizations.en.stringUnit.value`, the empty string when absent)
differs between base and current; in particular a change confined to
non-English locale values leaves the extracted source value — and hence
the verdict — unchanged, while every change to the English source value
marks the key changed.  A key whose base or current entry is not a
mapping is never marked changed by the value comparison. -/
theorem claim_C2_amended (old_data new_data : JDict) (key : String)
    (hko : key ∈ dictKeys (stringsDictOf old_data))
    (hkn : key ∈ dictKeys (stringsDictOf new_data))
    (hdo : (stringsEntryOf old_data key).isDict = true)
    (hdn : (stringsEntryOf new_data key).isDict = true) :
    key ∈ get_changed_string_keys old_data new_data ↔
      get_string_unit_value (stringsEntryOf old_data key) ≠
        get_string_unit_value (stringsEntryOf new_data key) := by
  simp only [stringsDictOf, stringsEntryOf] at hko hkn hdo hdn ⊢
  unfold get_changed_string_keys
  simp only [List.mem_append, List.mem_filter, decide_eq_true_eq]
  constructor
  · rintro (⟨_, h2⟩ | ⟨_, hpred⟩)
    · exact absurd hko h2
    · exact hpred.2.2
  · intro hne
    exact Or.inr ⟨⟨hko, hkn⟩, hdo, hdn, hne⟩

/-- Witness for the amended claim C2: an English source change from
`"A"` to `"B"` (both entries proper mappings) marks the key changed. -/
theorem claim_C2_witness :
    "k" ∈ get_changed_string_keys
      [("strings", JValue.jobj [("k", .jobj [("localizations", .jobj [("en", .jobj
        [("stringUnit", .jobj [("value", .jstr "A")])])])])])]
      [("strings", JValue.jobj [("k", .jobj [("localizations", .jobj [("en", .jobj
        [("stringUnit", .jobj [("value", .jstr "B")])])])])])] :=
  (claim_C2_amended _ _ "k" (by decide) (by decide) (by decide) (by decide)).mpr
    (by decide)

/-- Counterexample to claim C5 as stated: the changed key `"k"` has a
malformed current entry (the scalar `"x"`, not a mapping) and the
required-locale set is `{"de"}`, yet the missing check emits no issue at
all — the key is silently skipped rather than treated as missing for
every required locale. -/
theorem claim_C5_counterexample :
    (catalogEntryOf [("strings", JValue.jobj [("k", .jstr "x")])] "k").isDict = false ∧
    check_xcstrings_strings_missing_translations "f"
      [("strings", JValue.jobj [("k", .jstr "x")])] ["de"] ["k"] = [] := by
  refine ⟨by decide, by decide⟩

/-- Claim C5 amended: in the catalog-format coverage evaluation, a
changed key whose current entry is malformed (not a mapping) is silently
skipped by the missing check — no issue for it is ever emitted, exactly
as for a key with `shouldTranslate == false`. -/
theorem claim_C5_amended (file_path : String) (current_data : JDict)
    (required_locales changed_keys : List String) (key : String)
    (hmal : (catalogEntryOf current_data key).isDict = false) :
    ∀ ms ty, (file_path, key, ms, ty) ∉
      check_xcstrings_strings_missing_translations file_path current_data
        required_locales changed_keys := by
  intro ms ty hmem
  rw [mem_missing_check] at hmem
  obtain ⟨k', _, hdict, _, _, heq⟩ := hmem
  simp only [Prod.mk.injEq] at heq
  obtain ⟨_, hkey, _⟩ := heq
  rw [← hkey] at hdict
  rw [hmal] at hdict
  exact Bool.false_ne_true hdict

/-- Witness for the amended claim C5 at a concrete input. -/
theorem claim_C5_witness :
    ("f", "k", ["de"], ISSUE_TYPE_MISSING) ∉
      check_xcstrings_strings_missing_translations "f"
        [("strings", JValue.jobj [("k", .jstr "x")])] ["de"] ["k"] :=
  claim_C5_amended "f" [("strings", JValue.jobj [("k", .jstr "x")])] ["de"] ["k"] "k"
    (by decide) ["de"] ISSUE_TYPE_MISSING

/-- Claim C3: in the missing check, (1) for a catalog entry (with a
well-formed `localizations` mapping) a required locale is counted
missing exactly when its `stringUnit` state is neither `"translated"`
nor `"needs_review"`; (2) an absent or non-mapping per-locale entry (its
state reads as `none`) counts as missing; (3) for a changed key whose
entry is a mapping with `shouldTranslate` not `False`, a missing issue
for the key is emitted iff the missing-locale set is non-empty; (4, 5)
for the flat and plural formats an issue `(file, key, ms, missing)` is
emitted exactly when the key changed and `ms`, the non-empty set of
required locales whose parsed sibling locale file lacks the key, is its
locale set — locale values are never compared. -/
theorem claim_C3_missing_coverage :
    (∀ (value : JValue) (required_locales : List String) (locale : String),
      (pyGet value "localizations" (.jobj [])).isDict = true →
      (locale ∈ xcstringsMissingLocales value required_locales ↔
        locale ∈ required_locales ∧
          localeStateOf value locale ≠ some (.jstr "translated") ∧
          localeStateOf value locale ≠ some (.jstr "needs_review"))) ∧
    (∀ (value : JValue) (required_locales : List String) (locale : String),
      locale ∈ required_locales → (localeEntryOf value locale).isDict = false →
      locale ∈ xcstringsMissingLocales value required_locales) ∧
    (∀ (file_path : String) (current_data : JDict)
      (required_locales changed_keys : List String) (key : String),
      key ∈ changed_keys →
      (catalogEntryOf current_data key).isDict = true →
      shouldTranslateIsFalse (catalogEntryOf current_data key) = false →
      (pyGet (catalogEntryOf current_data key) "localizations" (.jobj [])).isDict = true →
      ((∃ ms, (file_path, key, ms, ISSUE_TYPE_MISSING) ∈
          check_xcstrings_strings_missing_translations file_path current_data
            required_locales changed_keys) ↔
        xcstringsMissingLocales (catalogEntryOf current_data key)
          required_locales ≠ [])) ∧
    (∀ (i : TranslationIssue) (en_file_path : String)
      (current_strings base_strings : List (String × String))
      (required_locales : List String)
      (locale_strings_cache : String → List (String × String)),
      i ∈ check_strings_translations_core en_file_path current_strings base_strings
          required_locales locale_strings_cache ↔
        ∃ key, key ∈ changedKeysOf current_strings base_strings ∧
          required_locales.filter
            (fun locale => decide (key ∉ dictKeys (locale_strings_cache locale))) ≠ [] ∧
          i = (en_file_path, key,
            required_locales.filter
              (fun locale => decide (key ∉ dictKeys (locale_strings_cache locale))),
            ISSUE_TYPE_MISSING)) ∧
    (∀ (i : TranslationIssue) (en_file_path : String)
      (current_data base_data : List (String × JValue))
      (required_locales : List String) (locale_keys_cache : String → List String),
      i ∈ check_stringsdict_translations_core en_file_path current_data base_data
          required_locales locale_keys_cache ↔
        ∃ key, key ∈ changedKeysOf current_data base_data ∧
          required_locales.filter
            (fun locale => decide (key ∉ locale_keys_cache locale)) ≠ [] ∧
          i = (en_file_path, key,
            required_locales.filter
              (fun locale => decide (key ∉ locale_keys_cache locale)),
            ISSUE_TYPE_MISSING)) := by
  refine ⟨fun value req locale _ => mem_xcstringsMissingLocales,
    fun value req locale hr hmal => ?_, fun fp cur req changed key hk hd hs _ => ?_,
    fun i en cur base req cache => mem_strings_core,
    fun i en cur base req cache => mem_stringsdict_core⟩
  · refine mem_xcstringsMissingLocales.mpr ⟨hr, ?_, ?_⟩ <;>
      simp only [localeStateOf, get_string_unit_state_of_not_dict hmal] <;>
      exact Option.noConfusion
  · constructor
    · rintro ⟨ms, hmem⟩
      rw [mem_missing_check] at hmem
      obtain ⟨k', _, _, _, hne, heq⟩ := hmem
      simp only [Prod.mk.injEq] at heq
      obtain ⟨_, hkey, _⟩ := heq
      rw [← hkey] at hne
      exact hne
    · intro hne
      exact ⟨_, mem_missing_check.mpr ⟨key, hk, hd, hs, hne, rfl⟩⟩

/-- Witness for claim C3 at a concrete input: a changed catalog key whose
`de` localization is absent yields a missing issue. -/
theorem claim_C3_witness :
    ∃ ms, ("f", "k", ms, ISSUE_TYPE_MISSING) ∈
      check_xcstrings_strings_missing_translations "f"
        [("strings", JValue.jobj [("k", .jobj [("localizations", .jobj [("en", .jobj
          [("stringUnit", .jobj [("value", .jstr "A")])])])])])] ["de"] ["k"] :=
  (claim_C3_missing_coverage.2.2.1 "f"
    [("strings", JValue.jobj [("k", .jobj [("localizations", .jobj [("en", .jobj
      [("stringUnit", .jobj [("value", .jstr "A")])])])])])] ["de"] ["k"] "k"
    (by decide) (by decide) (by decide) (by decide)).mpr (by decide)

theorem pyGet_of_not_dict {v : JValue} (h : v.isDict = false) (k : String) (d : JValue) :
    pyGet v k d = d := by
  cases v <;> simp_all [pyGet, JValue.isDict]

theorem localeStateOf_of_not_dict {v : JValue} (h : v.isDict = false) (locale : String) :
    localeStateOf v locale = none := by
  unfold localeStateOf localeEntryOf
  rw [pyGet_of_not_dict h]
  rfl

/-- Claim C4: in the catalog-format needs-review check, for a changed key
(entry a mapping, `shouldTranslate` not `False`, well-formed base
localizations) and a required locale whose current state is
`needs_review`, a needs-review issue includes that locale exactly when
the same locale's state for that key at the base revision was not
`needs_review`; in particular a locale in state `needs_review` in both
base and current is not flagged, and a locale newly transitioning to
`needs_review` (including on a key absent from base, whose base state
reads as `none`) always is. -/
theorem claim_C4_needs_review (file_path : String)
    (current_data base_data : JDict) (required_locales changed_keys : List String)
    (key locale : String)
    (hk : key ∈ changed_keys)
    (hdict : (catalogEntryOf current_data key).isDict = true)
    (hstf : shouldTranslateIsFalse (catalogEntryOf current_data key) = false)
    (hloc : locale ∈ required_locales)
    (hstate : localeStateOf (catalogEntryOf current_data key) locale =
      some (.jstr "needs_review"))
    (hwb : (pyGet (catalogEntryOf base_data key) "localizations" (.jobj [])).isDict
      = true) :
    (∃ ms, (file_path, key, ms, ISSUE_TYPE_NEEDS_REVIEW) ∈
        check_xcstrings_needs_review file_path current_data base_data
          required_locales changed_keys ∧ locale ∈ ms) ↔
      localeStateOf (catalogEntryOf base_data key) locale ≠
        some (.jstr "needs_review") := by
  constructor
  · rintro ⟨ms, hmem, hin⟩
    rw [mem_review_check] at hmem
    obtain ⟨k', _, _, _, _, heq⟩ := hmem
    simp only [Prod.mk.injEq] at heq
    obtain ⟨_, hkey, hms, _⟩ := heq
    subst hkey
    rw [hms] at hin
    rw [mem_xcstringsNeedsReviewLocales] at hin
    obtain ⟨_, _, himpl⟩ := hin
    by_cases hb : (catalogEntryOf base_data key).isDict = true
    · have h2 := himpl hb
      simpa only [localeStateOf, localeEntryOf, catalogEntryOf] using h2
    · rw [localeStateOf_of_not_dict (Bool.eq_false_iff.mpr hb) locale]
      exact Option.noConfusion
  · intro hbase
    have hloc_mem : locale ∈ xcstringsNeedsReviewLocales (catalogEntryOf current_data key)
        (pyGet (.jobj base_data) "strings" (.jobj [])) key required_locales := by
      refine mem_xcstringsNeedsReviewLocales.mpr ⟨hloc, hstate, fun _ => ?_⟩
      simpa only [localeStateOf, localeEntryOf, catalogEntryOf] using hbase
    refine ⟨_, mem_review_check.mpr ⟨key, hk, hdict, hstf, ?_, rfl⟩, hloc_mem⟩
    intro h0
    rw [h0] at hloc_mem
    exact List.not_mem_nil _ hloc_mem

/-- Witness for claim C4 at a concrete input: a locale newly in
`needs_review` (base state `translated`) is flagged. -/
theorem claim_C4_witness :
    ∃ ms, ("f", "k", ms, ISSUE_TYPE_NEEDS_REVIEW) ∈
        check_xcstrings_needs_review "f"
          [("strings", JValue.jobj [("k", .jobj [("localizations", .jobj
            [("de", .jobj [("stringUnit", .jobj [("state", .jstr "needs_review")])])])])])]
          [("strings", JValue.jobj [("k", .jobj [("localizations", .jobj
            [("de", .jobj [("stringUnit", .jobj [("state", .jstr "translated")])])])])])]
          ["de"] ["k"] ∧ "de" ∈ ms :=
  (claim_C4_needs_review "f"
    [("strings", JValue.jobj [("k", .jobj [("localizations", .jobj
      [("de", .jobj [("stringUnit", .jobj [("state", .jstr "needs_review")])])])])])]
    [("strings", JValue.jobj [("k", .jobj [("localizations", .jobj
      [("de", .jobj [("stringUnit", .jobj [("state", .jstr "translated")])])])])])]
    ["de"] ["k"] "k" "de" (by decide) (by decide) (by decide) (by decide) (by decide)
    (by decide)).mpr (by decide)

/-- Claim C8: a changed catalog key whose entry has `shouldTranslate`
equal to the boolean `False` produces no issue of either kind, for any
required locales and localization states; and a key without a
`shouldTranslate` field (default true, entry a mapping) is checked
normally — its missing issue is emitted exactly when its missing-locale
set is non-empty. -/
theorem claim_C8_should_translate_exemption :
    (∀ (file_path : String) (current_data base_data : JDict)
      (required_locales changed_keys : List String) (key : String)
      (ms : List String) (ty : String),
      shouldTranslateIsFalse (catalogEntryOf current_data key) = true →
      (file_path, key, ms, ty) ∉
        check_xcstrings_strings_missing_translations file_path current_data
          required_locales changed_keys ∧
      (file_path, key, ms, ty) ∉
        check_xcstrings_needs_review file_path current_data base_data
          required_locales changed_keys) ∧
    (∀ (file_path : String) (current_data : JDict)
      (required_locales changed_keys : List String) (key : String),
      key ∈ changed_keys →
      (catalogEntryOf current_data key).isDict = true →
      pyGetOpt (catalogEntryOf current_data key) "shouldTranslate" = none →
      ((∃ ms, (file_path, key, ms, ISSUE_TYPE_MISSING) ∈
          check_xcstrings_strings_missing_translations file_path current_data
            required_locales changed_keys) ↔
        xcstringsMissingLocales (catalogEntryOf current_data key)
          required_locales ≠ [])) := by
  constructor
  · intro fp cur base req changed key ms ty hstf
    constructor
    · intro hmem
      rw [mem_missing_check] at hmem
      obtain ⟨k', _, _, hs, _, heq⟩ := hmem
      simp only [Prod.mk.injEq] at heq
      obtain ⟨_, hkey, _⟩ := heq
      rw [← hkey] at hs
      rw [hstf] at hs
      exact Bool.noConfusion hs
    · intro hmem
      rw [mem_review_check] at hmem
      obtain ⟨k', _, _, hs, _, heq⟩ := hmem
      simp only [Prod.mk.injEq] at heq
      obtain ⟨_, hkey, _⟩ := heq
      rw [← hkey] at hs
      rw [hstf] at hs
      exact Bool.noConfusion hs
  · intro fp cur req changed key hk hd hnone
    have hstf : shouldTranslateIsFalse (catalogEntryOf cur key) = false := by
      unfold shouldTranslateIsFalse
      rw [hnone]
    constructor
    · rintro ⟨ms, hmem⟩
      rw [mem_missing_check] at hmem
      obtain ⟨k', _, _, _, hne, heq⟩ := hmem
      simp only [Prod.mk.injEq] at heq
      obtain ⟨_, hkey, _⟩ := heq
      rw [← hkey] at hne
      exact hne
    · intro hne
      exact ⟨_, mem_missing_check.mpr ⟨key, hk, hd, hstf, hne, rfl⟩⟩

/-- Witness for claim C8 at a concrete input: a changed key with
`shouldTranslate = false` and an untranslated required locale still
produces no missing issue. -/
theorem claim_C8_witness :
    ("f", "k", ["de"], ISSUE_TYPE_MISSING) ∉
      check_xcstrings_strings_missing_translations "f"
        [("strings", JValue.jobj [("k", .jobj [("shouldTranslate", .jbool false)])])]
        ["de"] ["k"] :=
  (claim_C8_should_translate_exemption.1 "f"
    [("strings", JValue.jobj [("k", .jobj [("shouldTranslate", .jbool false)])])]
    [] ["de"] ["k"] "k" ["de"] ISSUE_TYPE_MISSING (by decide)).1

/-- Claim C10 (implicit): the two catalog passes treat a malformed
(non-mapping) per-locale entry asymmetrically — the missing check counts
that locale as missing, while the needs-review check skips it, so that
locale never appears in the locale set of a needs-review issue for that
key. -/
theorem claim_C10_malformed_locale_entry_asymmetry :
    (∀ (value : JValue) (required_locales : List String) (locale : String),
      locale ∈ required_locales →
      (localeEntryOf value locale).isDict = false →
      locale ∈ xcstringsMissingLocales value required_locales) ∧
    (∀ (file_path : String) (current_data base_data : JDict)
      (required_locales changed_keys : List String) (key locale : String)
      (ms : List String),
      (localeEntryOf (catalogEntryOf current_data key) locale).isDict = false →
      (file_path, key, ms, ISSUE_TYPE_NEEDS_REVIEW) ∈
        check_xcstrings_needs_review file_path current_data base_data
          required_locales changed_keys →
      locale ∉ ms) := by
  constructor
  · intro value req locale hr hmal
    refine mem_xcstringsMissingLocales.mpr ⟨hr, ?_, ?_⟩ <;>
      simp only [localeStateOf, get_string_unit_state_of_not_dict hmal] <;>
      exact Option.noConfusion
  · intro fp cur base req changed key locale ms hmal hmem hin
    rw [mem_review_check] at hmem
    obtain ⟨k', _, _, _, _, heq⟩ := hmem
    simp only [Prod.mk.injEq] at heq
    obtain ⟨_, hkey, hms, _⟩ := heq
    subst hkey
    rw [hms] at hin
    rw [mem_xcstringsNeedsReviewLocales] at hin
    obtain ⟨_, hstate, _⟩ := hin
    rw [show localeStateOf (catalogEntryOf cur key) locale =
        get_string_unit_state (localeEntryOf (catalogEntryOf cur key) locale) from rfl]
      at hstate
    rw [get_string_unit_state_of_not_dict hmal] at hstate
    exact Option.noConfusion hstate

/-- Witness for claim C10 at a concrete input: the locale `fr`, whose
per-locale entry is the scalar `"bad"`, is absent from the needs-review
issue emitted for the key (while `de`, newly `needs_review`, is in it). -/
theorem claim_C10_witness :
    ("f", "k", ["de"], ISSUE_TYPE_NEEDS_REVIEW) ∈
      check_xcstrings_needs_review "f"
        [("strings", JValue.jobj [("k", .jobj [("localizations", .jobj
          [("de", .jobj [("stringUnit", .jobj [("state", .jstr "needs_review")])]),
           ("fr", .jstr "bad")])])])]
        [] ["de", "fr"] ["k"] ∧
    "fr" ∉ (["de"] : List String) :=
  ⟨by decide,
    claim_C10_malformed_locale_entry_asymmetry.2 "f"
      [("strings", JValue.jobj [("k", .jobj [("localizations", .jobj
        [("de", .jobj [("stringUnit", .jobj [("state", .jstr "needs_review")])]),
         ("fr", .jstr "bad")])])])]
      [] ["de", "fr"] ["k"] "k" "fr" ["de"] (by decide) (by decide)⟩

/-- Claim C6, the code-bug side: the two `.stringsdict` parsers do not
honor the never-raise contract the claim states and their own
`try/except` plainly intends.  `plistlib.loads` on content whose prefix
selects the XML plist parser but which is malformed XML — for example
`"<plist><dict>"` — raises `xml.parsers.expat.ExpatError`, which is not
in the caught `(plistlib.InvalidFileException, ValueError, TypeError)`
tuple, so the exception propagates out of `parse_stringsdict_file` and
`parse_stringsdict_file_full` (result `none` in the embedding) instead
of the empty entry set; by contrast, the same content under a decoder
failing with one of the caught types recovers to the empty result, as
the claim demands.  (`parse_xcstrings` catches the only exception
`json.loads` raises on a string, and `re.finditer` cannot fail, so the
claim does hold of the other two parsers.) -/
theorem claim_C6_uncaught_exception (plistDecode : String → PlistDecodeResult)
    (content : String) (hc : content ≠ "")
    (hu : plistDecode content = .uncaughtErr) :
    parse_stringsdict_file plistDecode content = none ∧
    parse_stringsdict_file_full plistDecode content = none ∧
    parse_stringsdict_file (fun _ => .caughtErr) content = some [] ∧
    parse_stringsdict_file_full (fun _ => .caughtErr) content = some [] := by
  unfold parse_stringsdict_file parse_stringsdict_file_full
  rw [if_neg hc, if_neg hc, if_neg hc, if_neg hc, hu]
  exact ⟨rfl, rfl, rfl, rfl⟩

/-- Witness for claim C6 at the failing input: on `"<plist><dict>"` the
decoder fails outside the caught tuple and the exception escapes both
parsers, while a caught failure on the same content recovers. -/
theorem claim_C6_uncaught_witness :
    parse_stringsdict_file (fun _ => .uncaughtErr) "<plist><dict>" = none ∧
    parse_stringsdict_file_full (fun _ => .uncaughtErr) "<plist><dict>" = none ∧
    parse_stringsdict_file (fun _ => .caughtErr) "<plist><dict>" = some [] ∧
    parse_stringsdict_file_full (fun _ => .caughtErr) "<plist><dict>" = some [] :=
  claim_C6_uncaught_exception (fun _ => .uncaughtErr) "<plist><dict>"
    (by decide) rfl

theorem sorted_sortStrings (l : List String) : List.Sorted SLe (sortStrings l) := by
  haveI : IsTotal String SLe := ⟨strLe_total⟩
  haveI : IsTrans String SLe := ⟨fun _ _ _ => strLe_trans⟩
  exact List.sorted_insertionSort SLe l

theorem sorted_sortFileIssues (l : List FileIssue) :
    List.Sorted KeyLe (sortFileIssues l) := by
  haveI : IsTotal FileIssue KeyLe := ⟨fun a b => strLe_total a.1 b.1⟩
  haveI : IsTrans FileIssue KeyLe := ⟨fun _ _ _ => strLe_trans⟩
  exact List.sorted_insertionSort KeyLe l

/-- Claim C9: the aggregator emits file groups in lexicographic path
order and, within each file, issues in lexicographic key order computed
from the untruncated keys; the displayed key is the key itself when it
has at most 50 characters and its first 47 characters plus `"..."`
otherwise (truncation happens only in the displayed string — the issue
data and ordering use the full key); and the locale column reads
`"All N languages"` (`N` the size of the required set) exactly when the
issue's locale set equals the required-locale set, and otherwise is the
alphabetically sorted comma-separated locale list. -/
theorem claim_C9_aggregator_format :
    (∀ issues : List TranslationIssue,
      List.Sorted SLe (sortStrings (dedupFirst (issues.map (·.1))))) ∧
    (∀ (issues : List TranslationIssue) (file_path : String),
      List.Sorted SLe ((sortFileIssues (issuesForFile issues file_path)).map (·.1))) ∧
    (∀ key : String, key.length ≤ 50 → display_key_of key = key) ∧
    (∀ key : String, 50 < key.length → display_key_of key = key.take 47 ++ "...") ∧
    (∀ locales required_locales : List String,
      localeSetEqb locales required_locales = true ↔
        (∀ x, x ∈ locales ↔ x ∈ required_locales)) ∧
    (∀ locales required_locales : List String,
      localeSetEqb locales required_locales = true →
      locale_display_of locales required_locales =
        "All " ++ toString required_locales.length ++ " languages") ∧
    (∀ locales required_locales : List String,
      localeSetEqb locales required_locales = false →
      locale_display_of locales required_locales =
        String.intercalate ", " (sortStrings locales)) := by
  refine ⟨fun issues => sorted_sortStrings _, fun issues fp => ?_,
    fun key h => if_pos h, fun key h => if_neg (by omega),
    fun locales req => ?_, fun locales req h => ?_, fun locales req h => ?_⟩
  · rw [List.Sorted, List.pairwise_map]
    exact sorted_sortFileIssues _
  · rw [localeSetEqb, decide_eq_true_eq]
    constructor
    · rintro ⟨h1, h2⟩ x
      exact ⟨fun hx => h1 x hx, fun hx => h2 x hx⟩
    · intro h
      exact ⟨fun x hx => (h x).mp hx, fun x hx => (h x).mpr hx⟩
  · rw [locale_display_of, if_pos h]
  · rw [locale_display_of, if_neg (by rw [h]; exact Bool.noConfusion)]

/-- Witness for claim C9 at concrete inputs. -/
theorem claim_C9_witness :
    List.Sorted SLe (sortStrings (dedupFirst ((
      [("b", "k", ["de"], "missing"), ("a", "j", ["fr"], "missing")] :
        List TranslationIssue).map (·.1)))) ∧
    display_key_of "short" = "short" ∧
    locale_display_of ["fr", "de"] ["de", "fr"] = "All 2 languages" ∧
    locale_display_of ["fr"] ["de", "fr"] = "fr" :=
  ⟨claim_C9_aggregator_format.1 _,
   claim_C9_aggregator_format.2.2.1 "short" (by decide),
   claim_C9_aggregator_format.2.2.2.2.2.1 ["fr", "de"] ["de", "fr"] (by decide),
   by
    rw [claim_C9_aggregator_format.2.2.2.2.2.2 ["fr"] ["de", "fr"] (by decide)]
    decide⟩

/-! ## Utilities for the determinism proof -/

theorem strLe_refl (a : String) : SLe a a := (strLe_total a a).elim id id

theorem mem_sortStrings {l : List String} {x : String} : x ∈ sortStrings l ↔ x ∈ l :=
  (List.perm_insertionSort SLe l).mem_iff

theorem nodup_sortStrings {l : List String} (h : l.Nodup) : (sortStrings l).Nodup :=
  ((List.perm_insertionSort SLe l).nodup_iff).mpr h

theorem perm_of_nodup_same_mem {l₁ l₂ : List String} (h₁ : l₁.Nodup) (h₂ : l₂.Nodup)
    (hm : ∀ x, x ∈ l₁ ↔ x ∈ l₂) : l₁.Perm l₂ :=
  (List.perm_ext_iff_of_nodup h₁ h₂).mpr hm

theorem sortStrings_eq_of_same_mem {l₁ l₂ : List String} (h₁ : l₁.Nodup)
    (h₂ : l₂.Nodup) (hm : ∀ x, x ∈ l₁ ↔ x ∈ l₂) : sortStrings l₁ = sortStrings l₂ := by
  haveI : IsAntisymm String SLe := ⟨fun _ _ => strLe_antisymm⟩
  exact List.eq_of_perm_of_sorted
    (((List.perm_insertionSort SLe l₁).trans (perm_of_nodup_same_mem h₁ h₂ hm)).trans
      (List.perm_insertionSort SLe l₂).symm)
    (sorted_sortStrings l₁) (sorted_sortStrings l₂)

theorem sortStrings_idem (l : List String) :
    sortStrings (sortStrings l) = sortStrings l :=
  List.Sorted.insertionSort_eq (sorted_sortStrings l)

theorem mem_dedupFirstFrom : ∀ (l : List String) (seen : List String) (x : String),
    x ∈ dedupFirstFrom seen l ↔ x ∈ l ∧ x ∉ seen
  | [], seen, x => by simp [dedupFirstFrom]
  | p :: rest, seen, x => by
    by_cases hp : p ∈ seen
    · rw [dedupFirstFrom, if_pos hp, mem_dedupFirstFrom rest seen x]
      constructor
      · rintro ⟨h1, h2⟩
        exact ⟨List.mem_cons_of_mem p h1, h2⟩
      · rintro ⟨h1, h2⟩
        rcases List.mem_cons.mp h1 with h1 | h1
        · exact absurd (h1 ▸ hp) h2
        · exact ⟨h1, h2⟩
    · rw [dedupFirstFrom, if_neg hp]
      constructor
      · intro h
        rcases List.mem_cons.mp h with h | h
        · exact ⟨h ▸ List.mem_cons_self p rest, h ▸ hp⟩
        · rw [mem_dedupFirstFrom rest (p :: seen) x] at h
          exact ⟨List.mem_cons_of_mem p h.1,
            fun hx => h.2 (List.mem_cons_of_mem p hx)⟩
      · rintro ⟨h1, h2⟩
        rcases List.mem_cons.mp h1 with h1 | h1
        · exact h1 ▸ List.mem_cons_self p _
        · by_cases hxp : x = p
          · exact hxp ▸ List.mem_cons_self p _
          · refine List.mem_cons_of_mem p ?_
            rw [mem_dedupFirstFrom rest (p :: seen) x]
            refine ⟨h1, fun hx => ?_⟩
            rcases List.mem_cons.mp hx with hx | hx
            · exact hxp hx
            · exact h2 hx

theorem mem_dedupFirst {l : List String} {x : String} :
    x ∈ dedupFirst l ↔ x ∈ l := by
  rw [dedupFirst, mem_dedupFirstFrom]
  simp

theorem nodup_dedupFirstFrom : ∀ (l seen : List String),
    (dedupFirstFrom seen l).Nodup
  | [], _ => by simp [dedupFirstFrom]
  | p :: rest, seen => by
    by_cases hp : p ∈ seen
    · rw [dedupFirstFrom, if_pos hp]
      exact nodup_dedupFirstFrom rest seen
    · rw [dedupFirstFrom, if_neg hp]
      refine List.nodup_cons.mpr ⟨fun hmem => ?_, nodup_dedupFirstFrom rest (p :: seen)⟩
      rw [mem_dedupFirstFrom] at hmem
      exact hmem.2 (List.mem_cons_self p seen)

theorem nodup_dedupFirst (l : List String) : (dedupFirst l).Nodup :=
  nodup_dedupFirstFrom l []

theorem orderedInsert_map {α β : Type} (r : β → β → Prop) [DecidableRel r]
    (s : α → α → Prop) [DecidableRel s] (f : α → β)
    (hrs : ∀ a b, r (f a) (f b) ↔ s a b) (a : α) :
    ∀ l : List α, List.orderedInsert r (f a) (l.map f) = (List.orderedInsert s a l).map f
  | [] => rfl
  | b :: t => by
    simp only [List.map_cons, List.orderedInsert]
    by_cases h : s a b
    · rw [if_pos ((hrs a b).mpr h), if_pos h]
      simp
    · rw [if_neg (fun hc => h ((hrs a b).mp hc)), if_neg h, List.map_cons,
        orderedInsert_map r s f hrs a t]

theorem insertionSort_map {α β : Type} (r : β → β → Prop) [DecidableRel r]
    (s : α → α → Prop) [DecidableRel s] (f : α → β)
    (hrs : ∀ a b, r (f a) (f b) ↔ s a b) :
    ∀ l : List α, List.insertionSort r (l.map f) = (List.insertionSort s l).map f
  | [] => rfl
  | a :: t => by
    simp only [List.map_cons, List.insertionSort]
    rw [insertionSort_map r s f hrs t, orderedInsert_map r s f hrs a]

theorem orderedInsert_key_lex (a : FileIssue) :
    ∀ s : List FileIssue, (∀ b ∈ s, b.1 = a.1 → rankOf a.2.2 ≤ rankOf b.2.2) →
      List.orderedInsert KeyLe a s = List.orderedInsert LexLe a s
  | [], _ => rfl
  | b :: t, h => by
    simp only [List.orderedInsert]
    by_cases hk : KeyLe a b
    · have hl : LexLe a b := by
        by_cases he : a.1 = b.1
        · exact Or.inr ⟨he, h b (List.mem_cons_self b t) he.symm⟩
        · exact Or.inl ⟨hk, he⟩
      rw [if_pos hk, if_pos hl]
    · have hl : ¬ LexLe a b := by
        rintro (⟨h1, _⟩ | ⟨h1, _⟩)
        · exact hk h1
        · refine hk ?_
          show SLe a.1 b.1
          rw [← h1]
          exact strLe_refl a.1
      rw [if_neg hk, if_neg hl,
        orderedInsert_key_lex a t (fun c hc => h c (List.mem_cons_of_mem b hc))]

theorem insertionSort_key_lex :
    ∀ l : List FileIssue,
      List.Pairwise (fun x y => x.1 = y.1 → rankOf x.2.2 ≤ rankOf y.2.2) l →
      List.insertionSort KeyLe l = List.insertionSort LexLe l
  | [], _ => rfl
  | a :: t, h => by
    have ha := (List.pairwise_cons.mp h).1
    have ht := (List.pairwise_cons.mp h).2
    simp only [List.insertionSort]
    rw [insertionSort_key_lex t ht]
    exact orderedInsert_key_lex a _ (fun b hb hbe =>
      ha b ((List.perm_insertionSort LexLe t).subset hb) hbe.symm)

theorem eq_of_perm_of_sorted_lex {l₁ : List FileIssue} :
    ∀ {l₂ : List FileIssue}, l₁.Perm l₂ →
      List.Sorted LexLe l₁ → List.Sorted LexLe l₂ →
      (∀ a ∈ l₁, ∀ b ∈ l₁, a.1 = b.1 → rankOf a.2.2 = rankOf b.2.2 → a = b) →
      l₁ = l₂ := by
  induction l₁ with
  | nil =>
    intro l₂ hp _ _ _
    exact (hp.symm.eq_nil).symm
  | cons a t₁ ih =>
    intro l₂ hp hs₁ hs₂ ha
    cases l₂ with
    | nil => exact absurd hp.eq_nil (by simp)
    | cons b t₂ =>
      have hab : a = b := by
        by_cases hab : a = b
        · exact hab
        · have hamem : a ∈ b :: t₂ := hp.subset (List.mem_cons_self a t₁)
        
          have hbmem : b ∈ a :: t₁ := hp.symm.subset (List.mem_cons_self b t₂)
          have h1 : LexLe a b := by
            rcases List.mem_cons.mp hbmem with hb | hb
            · exact absurd hb.symm hab
            · exact (List.sorted_cons.mp hs₁).1 b hb
          have h2 : LexLe b a := by
            rcases List.mem_cons.mp hamem with hb | hb
            · exact absurd hb hab
            · exact (List.sorted_cons.mp hs₂).1 a hb
          have hkey : a.1 = b.1 := by
            rcases h1 with ⟨hsle, hne⟩ | ⟨he, _⟩
            · rcases h2 with ⟨hsle', _⟩ | ⟨he', _⟩
              · exact absurd (strLe_antisymm hsle hsle') hne
              · exact he'.symm
            · exact he
          have hrank : rankOf a.2.2 = rankOf b.2.2 := by
            rcases h1 with ⟨_, hne⟩ | ⟨_, hr1⟩
            · exact absurd hkey hne
            · rcases h2 with ⟨_, hne'⟩ | ⟨_, hr2⟩
              · exact absurd hkey.symm hne'
              · exact le_antisymm hr1 hr2
          exact ha a (List.mem_cons_self a t₁) b hbmem hkey hrank
      subst hab
      have hp' := hp.cons_inv
      rw [ih hp' (List.sorted_cons.mp hs₁).2 (List.sorted_cons.mp hs₂).2
        (fun x hx y hy => ha x (List.mem_cons_of_mem a hx) y (List.mem_cons_of_mem a hy))]

theorem localeSetEqb_congr_left {l₁ l₂ r : List String} (hm : ∀ x, x ∈ l₁ ↔ x ∈ l₂) :
    localeSetEqb l₁ r = localeSetEqb l₂ r := by
  unfold localeSetEqb
  rw [decide_eq_decide]
  constructor
  · rintro ⟨h1, h2⟩
    exact ⟨fun x hx => h1 x ((hm x).mpr hx), fun x hx => (hm x).mp (h2 x hx)⟩
  · rintro ⟨h1, h2⟩
    exact ⟨fun x hx => h1 x ((hm x).mp hx), fun x hx => (hm x).mpr (h2 x hx)⟩

theorem localeSetEqb_congr_right {l r₁ r₂ : List String} (hm : ∀ x, x ∈ r₁ ↔ x ∈ r₂) :
    localeSetEqb l r₁ = localeSetEqb l r₂ := by
  unfold localeSetEqb
  rw [decide_eq_decide]
  constructor
  · rintro ⟨h1, h2⟩
    exact ⟨fun x hx => (hm x).mp (h1 x hx), fun x hx => h2 x ((hm x).mpr hx)⟩
  · rintro ⟨h1, h2⟩
    exact ⟨fun x hx => (hm x).mpr (h1 x hx), fun x hx => h2 x ((hm x).mp hx)⟩

theorem locale_display_of_canon (locs req : List String) :
    locale_display_of (sortStrings locs) req = locale_display_of locs req := by
  unfold locale_display_of
  rw [localeSetEqb_congr_left (fun x => mem_sortStrings), sortStrings_idem]

theorem format_entry_lines_canon (req : List String) (e : FileIssue) :
    format_entry_lines req (canonRec e) = format_entry_lines req e := by
  unfold format_entry_lines canonRec
  simp only
  rw [locale_display_of_canon]

theorem format_entry_lines_req_congr {req₁ req₂ : List String} (h₁ : req₁.Nodup)
    (h₂ : req₂.Nodup) (hm : ∀ x, x ∈ req₁ ↔ x ∈ req₂) (e : FileIssue) :
    format_entry_lines req₁ e = format_entry_lines req₂ e := by
  unfold format_entry_lines locale_display_of
  rw [localeSetEqb_congr_right hm, (perm_of_nodup_same_mem h₁ h₂ hm).length_eq]

theorem flatMap_fel_canon (req : List String) (l : List FileIssue) :
    l.flatMap (format_entry_lines req) =
      (l.map canonRec).flatMap (format_entry_lines req) := by
  induction l with
  | nil => rfl
  | cons a t ih =>
    simp only [List.map_cons, List.flatMap_cons, ih, format_entry_lines_canon]

theorem sortFileIssues_map_canon (l : List FileIssue) :
    List.insertionSort KeyLe (l.map canonRec) = (sortFileIssues l).map canonRec :=
  insertionSort_map KeyLe KeyLe canonRec (fun _ _ => Iff.rfl) l

theorem lexLe_total : ∀ a b : FileIssue, LexLe a b ∨ LexLe b a := by
  intro a b
  by_cases he : a.1 = b.1
  · exact (Nat.le_total (rankOf a.2.2) (rankOf b.2.2)).imp
      (fun h => Or.inr ⟨he, h⟩) (fun h => Or.inr ⟨he.symm, h⟩)
  · exact (strLe_total a.1 b.1).imp
      (fun h => Or.inl ⟨h, he⟩) (fun h => Or.inl ⟨h, fun hc => he hc.symm⟩)

theorem lexLe_trans : ∀ {a b c : FileIssue}, LexLe a b → LexLe b c → LexLe a c := by
  rintro a b c (⟨hab, hne⟩ | ⟨heq, hr⟩) (⟨hbc, hne'⟩ | ⟨heq', hr'⟩)
  · refine Or.inl ⟨strLe_trans hab hbc, fun hc => ?_⟩
    rw [← hc] at hbc
    exact hne (strLe_antisymm hab hbc)
  · refine Or.inl ⟨?_, ?_⟩
    · rw [← heq']
      exact hab
    · rw [← heq']
      exact hne
  · refine Or.inl ⟨?_, ?_⟩
    · rw [heq]
      exact hbc
    · rw [heq]
      exact hne'
  · exact Or.inr ⟨heq.trans heq', le_trans hr hr'⟩

theorem sorted_insertionSort_lex (l : List FileIssue) :
    List.Sorted LexLe (List.insertionSort LexLe l) := by
  haveI : IsTotal FileIssue LexLe := ⟨lexLe_total⟩
  haveI : IsTrans FileIssue LexLe := ⟨fun _ _ _ => lexLe_trans⟩
  exact List.sorted_insertionSort LexLe l

theorem filter_eq_nil_congr {l₁ l₂ : List String} (p : String → Bool)
    (hm : ∀ x, x ∈ l₁ ↔ x ∈ l₂) : (l₁.filter p = []) ↔ (l₂.filter p = []) := by
  rw [List.filter_eq_nil_iff, List.filter_eq_nil_iff]
  constructor
  · intro h x hx
    exact h x ((hm x).mpr hx)
  · intro h x hx
    exact h x ((hm x).mp hx)

theorem filter_isEmpty_congr {l₁ l₂ : List String} (p : String → Bool)
    (hm : ∀ x, x ∈ l₁ ↔ x ∈ l₂) : (l₁.filter p).isEmpty = (l₂.filter p).isEmpty := by
  rcases hE : (l₂.filter p).isEmpty
  · rw [List.isEmpty_eq_false] at hE ⊢
    intro hc
    exact hE ((filter_eq_nil_congr p hm).mp hc)
  · rw [List.isEmpty_iff] at hE ⊢
    exact (filter_eq_nil_congr p hm).mpr hE

theorem sortStrings_filter_congr {l₁ l₂ : List String} (p : String → Bool)
    (h₁ : l₁.Nodup) (h₂ : l₂.Nodup) (hm : ∀ x, x ∈ l₁ ↔ x ∈ l₂) :
    sortStrings (l₁.filter p) = sortStrings (l₂.filter p) :=
  sortStrings_eq_of_same_mem (h₁.filter p) (h₂.filter p)
    (fun x => by simp [List.mem_filter, hm x])

theorem missing_check_eq_filterMap (file_path : String) (current_data : JDict)
    (required_locales changed_keys : List String) :
    check_xcstrings_strings_missing_translations file_path current_data
        required_locales changed_keys =
      changed_keys.filterMap (fun key =>
        if (pyGet (pyGet (.jobj current_data) "strings" (.jobj [])) key
              (.jobj [])).isDict = false ∨
            shouldTranslateIsFalse (pyGet (pyGet (.jobj current_data) "strings"
              (.jobj [])) key (.jobj [])) then none
        else if (xcstringsMissingLocales (pyGet (pyGet (.jobj current_data) "strings"
            (.jobj [])) key (.jobj [])) required_locales).isEmpty then none
        else some (file_path, key,
          xcstringsMissingLocales (pyGet (pyGet (.jobj current_data) "strings"
            (.jobj [])) key (.jobj [])) required_locales, ISSUE_TYPE_MISSING)) := by
  unfold check_xcstrings_strings_missing_translations
  cases hE : changed_keys.isEmpty
  · simp only [hE, Bool.false_eq_true, if_false]
  · rw [List.isEmpty_iff.mp hE]
    simp

theorem review_check_eq_filterMap (file_path : String)
    (current_data base_data : JDict) (required_locales changed_keys : List String) :
    check_xcstrings_needs_review file_path current_data base_data
        required_locales changed_keys =
      changed_keys.filterMap (fun key =>
        if (pyGet (pyGet (.jobj current_data) "strings" (.jobj [])) key
              (.jobj [])).isDict = false then none
        else if shouldTranslateIsFalse (pyGet (pyGet (.jobj current_data) "strings"
            (.jobj [])) key (.jobj [])) then none
        else if (xcstringsNeedsReviewLocales (pyGet (pyGet (.jobj current_data)
              "strings" (.jobj [])) key (.jobj []))
            (pyGet (.jobj base_data) "strings" (.jobj [])) key
            required_locales).isEmpty then none
        else some (file_path, key,
          xcstringsNeedsReviewLocales (pyGet (pyGet (.jobj current_data) "strings"
              (.jobj [])) key (.jobj []))
            (pyGet (.jobj base_data) "strings" (.jobj [])) key required_locales,
          ISSUE_TYPE_NEEDS_REVIEW)) := by
  unfold check_xcstrings_needs_review
  cases hE : changed_keys.isEmpty
  · simp only [hE, Bool.false_eq_true, if_false]
  · rw [List.isEmpty_iff.mp hE]
    simp

theorem isEmpty_congr_same_mem {α : Type} {l₁ l₂ : List α}
    (hm : ∀ x, x ∈ l₁ ↔ x ∈ l₂) : l₁.isEmpty = l₂.isEmpty := by
  cases l₁ with
  | nil =>
    cases l₂ with
    | nil => rfl
    | cons b t => exact absurd ((hm b).mpr (List.mem_cons_self b t)) (List.not_mem_nil b)
  | cons a t =>
    cases l₂ with
    | nil => exact absurd ((hm a).mp (List.mem_cons_self a t)) (List.not_mem_nil a)
    | cons b u => rfl

theorem canon_missing_congr (file_path : String) (current_data : JDict)
    {req₁ req₂ : List String} (h₁ : req₁.Nodup) (h₂ : req₂.Nodup)
    (hm : ∀ x, x ∈ req₁ ↔ x ∈ req₂) (changed_keys : List String) :
    (check_xcstrings_strings_missing_translations file_path current_data req₁
        changed_keys).map (fun i => canonRec (issueRec i)) =
      (check_xcstrings_strings_missing_translations file_path current_data req₂
        changed_keys).map (fun i => canonRec (issueRec i)) := by
  rw [missing_check_eq_filterMap, missing_check_eq_filterMap, List.map_filterMap,
    List.map_filterMap]
  congr 1
  funext key
  by_cases hc : (pyGet (pyGet (.jobj current_data) "strings" (.jobj [])) key
      (.jobj [])).isDict = false ∨
      shouldTranslateIsFalse (pyGet (pyGet (.jobj current_data) "strings"
        (.jobj [])) key (.jobj [])) = true
  · rw [if_pos hc, if_pos hc]
  · rw [if_neg hc, if_neg hc]
    have hEe : (xcstringsMissingLocales (pyGet (pyGet (.jobj current_data) "strings"
        (.jobj [])) key (.jobj [])) req₁).isEmpty =
        (xcstringsMissingLocales (pyGet (pyGet (.jobj current_data) "strings"
          (.jobj [])) key (.jobj [])) req₂).isEmpty := by
      unfold xcstringsMissingLocales
      exact filter_isEmpty_congr _ hm
    rcases hE2 : (xcstringsMissingLocales (pyGet (pyGet (.jobj current_data) "strings"
        (.jobj [])) key (.jobj [])) req₂).isEmpty with _ | _
    · have h1 := hEe.trans hE2
      have hss : sortStrings (xcstringsMissingLocales (pyGet (pyGet (.jobj current_data)
          "strings" (.jobj [])) key (.jobj [])) req₁) =
          sortStrings (xcstringsMissingLocales (pyGet (pyGet (.jobj current_data)
            "strings" (.jobj [])) key (.jobj [])) req₂) := by
        unfold xcstringsMissingLocales
        exact sortStrings_filter_congr _ h₁ h₂ hm
      simp only [h1, hE2, Bool.false_eq_true, if_false]
      simp only [Option.map, canonRec, issueRec, hss]
    · have h1 := hEe.trans hE2
      simp only [h1, hE2, if_true]

theorem canon_review_congr (file_path : String) (current_data base_data : JDict)
    {req₁ req₂ : List String} (h₁ : req₁.Nodup) (h₂ : req₂.Nodup)
    (hm : ∀ x, x ∈ req₁ ↔ x ∈ req₂) (changed_keys : List String) :
    (check_xcstrings_needs_review file_path current_data base_data req₁
        changed_keys).map (fun i => canonRec (issueRec i)) =
      (check_xcstrings_needs_review file_path current_data base_data req₂
        changed_keys).map (fun i => canonRec (issueRec i)) := by
  rw [review_check_eq_filterMap, review_check_eq_filterMap, List.map_filterMap,
    List.map_filterMap]
  congr 1
  funext key
  by_cases hc1 : (pyGet (pyGet (.jobj current_data) "strings" (.jobj [])) key
      (.jobj [])).isDict = false
  · rw [if_pos hc1, if_pos hc1]
  · rw [if_neg hc1, if_neg hc1]
    by_cases hc2 : shouldTranslateIsFalse (pyGet (pyGet (.jobj current_data) "strings"
        (.jobj [])) key (.jobj [])) = true
    · rw [if_pos hc2, if_pos hc2]
    · rw [if_neg hc2, if_neg hc2]
      have hEe : (xcstringsNeedsReviewLocales (pyGet (pyGet (.jobj current_data)
          "strings" (.jobj [])) key (.jobj []))
          (pyGet (.jobj base_data) "strings" (.jobj [])) key req₁).isEmpty =
          (xcstringsNeedsReviewLocales (pyGet (pyGet (.jobj current_data) "strings"
            (.jobj [])) key (.jobj []))
            (pyGet (.jobj base_data) "strings" (.jobj [])) key req₂).isEmpty := by
        unfold xcstringsNeedsReviewLocales
        exact filter_isEmpty_congr _ hm
      rcases hE2 : (xcstringsNeedsReviewLocales (pyGet (pyGet (.jobj current_data)
          "strings" (.jobj [])) key (.jobj []))
          (pyGet (.jobj base_data) "strings" (.jobj [])) key req₂).isEmpty with _ | _
      · have h1 := hEe.trans hE2
        have hss : sortStrings (xcstringsNeedsReviewLocales (pyGet (pyGet
            (.jobj current_data) "strings" (.jobj [])) key (.jobj []))
            (pyGet (.jobj base_data) "strings" (.jobj [])) key req₁) =
            sortStrings (xcstringsNeedsReviewLocales (pyGet (pyGet
              (.jobj current_data) "strings" (.jobj [])) key (.jobj []))
              (pyGet (.jobj base_data) "strings" (.jobj [])) key req₂) := by
          unfold xcstringsNeedsReviewLocales
          exact sortStrings_filter_congr _ h₁ h₂ hm
        simp only [h1, hE2, Bool.false_eq_true, if_false]
        simp only [Option.map, canonRec, issueRec, hss]
      · have h1 := hEe.trans hE2
        simp only [h1, hE2, if_true]

theorem canon_missing_perm (file_path : String) (current_data : JDict)
    (required_locales : List String) {ko₁ ko₂ : List String} (hk₁ : ko₁.Nodup)
    (hk₂ : ko₂.Nodup) (hkm : ∀ x, x ∈ ko₁ ↔ x ∈ ko₂) :
    ((check_xcstrings_strings_missing_translations file_path current_data
        required_locales ko₁).map (fun i => canonRec (issueRec i))).Perm
      ((check_xcstrings_strings_missing_translations file_path current_data
        required_locales ko₂).map (fun i => canonRec (issueRec i))) := by
  rw [missing_check_eq_filterMap, missing_check_eq_filterMap, List.map_filterMap,
    List.map_filterMap]
  exact (perm_of_nodup_same_mem hk₁ hk₂ hkm).filterMap _

theorem canon_review_perm (file_path : String) (current_data base_data : JDict)
    (required_locales : List String) {ko₁ ko₂ : List String} (hk₁ : ko₁.Nodup)
    (hk₂ : ko₂.Nodup) (hkm : ∀ x, x ∈ ko₁ ↔ x ∈ ko₂) :
    ((check_xcstrings_needs_review file_path current_data base_data
        required_locales ko₁).map (fun i => canonRec (issueRec i))).Perm
      ((check_xcstrings_needs_review file_path current_data base_data
        required_locales ko₂).map (fun i => canonRec (issueRec i))) := by
  rw [review_check_eq_filterMap, review_check_eq_filterMap, List.map_filterMap,
    List.map_filterMap]
  exact (perm_of_nodup_same_mem hk₁ hk₂ hkm).filterMap _

theorem canon_chunk_perm (file_path : String) (base_data current_data : JDict)
    {req₁ req₂ ko₁ ko₂ : List String} (hr₁ : req₁.Nodup) (hr₂ : req₂.Nodup)
    (hrm : ∀ x, x ∈ req₁ ↔ x ∈ req₂) (hk₁ : ko₁.Nodup) (hk₂ : ko₂.Nodup)
    (hkm : ∀ x, x ∈ ko₁ ↔ x ∈ ko₂) :
    ((checkXcstringsFileIssues file_path base_data current_data req₁ ko₁).map
        (fun i => canonRec (issueRec i))).Perm
      ((checkXcstringsFileIssues file_path base_data current_data req₂ ko₂).map
        (fun i => canonRec (issueRec i))) := by
  unfold checkXcstringsFileIssues
  have hEe : ko₁.isEmpty = ko₂.isEmpty := isEmpty_congr_same_mem hkm
  rw [hEe]
  rcases hE2 : ko₂.isEmpty with _ | _
  · simp only [Bool.false_eq_true, if_false, List.map_append]
    refine List.Perm.append ?_ ?_
    · rw [canon_missing_congr file_path current_data hr₁ hr₂ hrm ko₁]
      exact canon_missing_perm file_path current_data req₂ hk₁ hk₂ hkm
    · rw [canon_review_congr file_path current_data base_data hr₁ hr₂ hrm ko₁]
      exact canon_review_perm file_path current_data base_data req₂ hk₁ hk₂ hkm
  · simp

theorem pairwise_of_all {α : Type} {P : α → α → Prop} :
    ∀ {l : List α}, (∀ x ∈ l, ∀ y ∈ l, P x y) → List.Pairwise P l
  | [], _ => List.Pairwise.nil
  | a :: t, h =>
    List.Pairwise.cons (fun y hy => h a (List.mem_cons_self a t) y
        (List.mem_cons_of_mem a hy))
      (pairwise_of_all (fun x hx y hy => h x (List.mem_cons_of_mem a hx) y
        (List.mem_cons_of_mem a hy)))

theorem ty_of_mem_missing {file_path : String} {current_data : JDict}
    {required_locales changed_keys : List String} {i : TranslationIssue}
    (h : i ∈ check_xcstrings_strings_missing_translations file_path current_data
      required_locales changed_keys) : i.2.2.2 = ISSUE_TYPE_MISSING := by
  rw [mem_missing_check] at h
  obtain ⟨k, _, _, _, _, rfl⟩ := h
  rfl

theorem ty_of_mem_review {file_path : String} {current_data base_data : JDict}
    {required_locales changed_keys : List String} {i : TranslationIssue}
    (h : i ∈ check_xcstrings_needs_review file_path current_data base_data
      required_locales changed_keys) : i.2.2.2 = ISSUE_TYPE_NEEDS_REVIEW := by
  rw [mem_review_check] at h
  obtain ⟨k, _, _, _, _, rfl⟩ := h
  rfl

theorem key_eq_missing {file_path : String} {current_data : JDict}
    {required_locales changed_keys : List String} {i j : TranslationIssue}
    (hi : i ∈ check_xcstrings_strings_missing_translations file_path current_data
      required_locales changed_keys)
    (hj : j ∈ check_xcstrings_strings_missing_translations file_path current_data
      required_locales changed_keys)
    (hk : i.2.1 = j.2.1) : i = j := by
  rw [mem_missing_check] at hi hj
  obtain ⟨k1, _, _, _, _, rfl⟩ := hi
  obtain ⟨k2, _, _, _, _, rfl⟩ := hj
  simp only at hk
  rw [hk]

theorem key_eq_review {file_path : String} {current_data base_data : JDict}
    {required_locales changed_keys : List String} {i j : TranslationIssue}
    (hi : i ∈ check_xcstrings_needs_review file_path current_data base_data
      required_locales changed_keys)
    (hj : j ∈ check_xcstrings_needs_review file_path current_data base_data
      required_locales changed_keys)
    (hk : i.2.1 = j.2.1) : i = j := by
  rw [mem_review_check] at hi hj
  obtain ⟨k1, _, _, _, _, rfl⟩ := hi
  obtain ⟨k2, _, _, _, _, rfl⟩ := hj
  simp only at hk
  rw [hk]

theorem rank_invariant_chunk (file_path : String) (base_data current_data : JDict)
    (required_locales changed_keys : List String) :
    List.Pairwise (fun x y => x.1 = y.1 → rankOf x.2.2 ≤ rankOf y.2.2)
      ((checkXcstringsFileIssues file_path base_data current_data required_locales
        changed_keys).map (fun i => canonRec (issueRec i))) := by
  unfold checkXcstringsFileIssues
  rcases hE : changed_keys.isEmpty with _ | _
  · simp only [Bool.false_eq_true, if_false, List.map_append]
    rw [List.pairwise_append]
    refine ⟨pairwise_of_all ?_, pairwise_of_all ?_, ?_⟩
    · rintro x hx y hy _
      obtain ⟨i, hi, rfl⟩ := List.mem_map.mp hx
      obtain ⟨j, hj, rfl⟩ := List.mem_map.mp hy
      have h1 : (canonRec (issueRec i)).2.2 = i.2.2.2 := rfl
      have h2 : (canonRec (issueRec j)).2.2 = j.2.2.2 := rfl
      rw [h1, h2, ty_of_mem_missing hi, ty_of_mem_missing hj]
    · rintro x hx y hy _
      obtain ⟨i, hi, rfl⟩ := List.mem_map.mp hx
      obtain ⟨j, hj, rfl⟩ := List.mem_map.mp hy
      have h1 : (canonRec (issueRec i)).2.2 = i.2.2.2 := rfl
      have h2 : (canonRec (issueRec j)).2.2 = j.2.2.2 := rfl
      rw [h1, h2, ty_of_mem_review hi, ty_of_mem_review hj]
    · rintro x hx y hy _
      obtain ⟨i, hi, rfl⟩ := List.mem_map.mp hx
      obtain ⟨j, hj, rfl⟩ := List.mem_map.mp hy
      have h1 : (canonRec (issueRec i)).2.2 = i.2.2.2 := rfl
      have h2 : (canonRec (issueRec j)).2.2 = j.2.2.2 := rfl
      rw [h1, h2, ty_of_mem_missing hi, ty_of_mem_review hj]
      decide
  · simp

theorem local_antisym_chunk (file_path : String) (base_data current_data : JDict)
    (required_locales changed_keys : List String) :
    ∀ a ∈ (checkXcstringsFileIssues file_path base_data current_data required_locales
        changed_keys).map (fun i => canonRec (issueRec i)),
      ∀ b ∈ (checkXcstringsFileIssues file_path base_data current_data
        required_locales changed_keys).map (fun i => canonRec (issueRec i)),
      a.1 = b.1 → rankOf a.2.2 = rankOf b.2.2 → a = b := by
  unfold checkXcstringsFileIssues
  rcases hE : changed_keys.isEmpty with _ | _
  · simp only [Bool.false_eq_true, if_false, List.map_append]
    rintro a ha b hb hkey hrank
    rcases List.mem_append.mp ha with haM | haR <;>
      rcases List.mem_append.mp hb with hbM | hbR
    · obtain ⟨i, hi, rfl⟩ := List.mem_map.mp haM
      obtain ⟨j, hj, rfl⟩ := List.mem_map.mp hbM
      exact congrArg (fun i => canonRec (issueRec i)) (key_eq_missing hi hj hkey)
    · obtain ⟨i, hi, rfl⟩ := List.mem_map.mp haM
      obtain ⟨j, hj, rfl⟩ := List.mem_map.mp hbR
      rw [show (canonRec (issueRec i)).2.2 = i.2.2.2 from rfl,
        show (canonRec (issueRec j)).2.2 = j.2.2.2 from rfl,
        ty_of_mem_missing hi, ty_of_mem_review hj] at hrank
      exact absurd hrank (by decide)
    · obtain ⟨i, hi, rfl⟩ := List.mem_map.mp haR
      obtain ⟨j, hj, rfl⟩ := List.mem_map.mp hbM
      rw [show (canonRec (issueRec i)).2.2 = i.2.2.2 from rfl,
        show (canonRec (issueRec j)).2.2 = j.2.2.2 from rfl,
        ty_of_mem_review hi, ty_of_mem_missing hj] at hrank
      exact absurd hrank (by decide)
    · obtain ⟨i, hi, rfl⟩ := List.mem_map.mp haR
      obtain ⟨j, hj, rfl⟩ := List.mem_map.mp hbR
      exact congrArg (fun i => canonRec (issueRec i)) (key_eq_review hi hj hkey)
  · simp

theorem block_eq (file_path : String) (base_data current_data : JDict)
    {req₁ req₂ ko₁ ko₂ : List String} (hr₁ : req₁.Nodup) (hr₂ : req₂.Nodup)
    (hrm : ∀ x, x ∈ req₁ ↔ x ∈ req₂) (hk₁ : ko₁.Nodup) (hk₂ : ko₂.Nodup)
    (hkm : ∀ x, x ∈ ko₁ ↔ x ∈ ko₂) :
    (sortFileIssues ((checkXcstringsFileIssues file_path base_data current_data req₁
        ko₁).map issueRec)).flatMap (format_entry_lines req₁) =
      (sortFileIssues ((checkXcstringsFileIssues file_path base_data current_data req₂
        ko₂).map issueRec)).flatMap (format_entry_lines req₂) := by
  have hfel : format_entry_lines req₁ = format_entry_lines req₂ :=
    funext (format_entry_lines_req_congr hr₁ hr₂ hrm)
  have hkey : ((sortFileIssues ((checkXcstringsFileIssues file_path base_data
      current_data req₁ ko₁).map issueRec)).map canonRec) =
      ((sortFileIssues ((checkXcstringsFileIssues file_path base_data current_data
        req₂ ko₂).map issueRec)).map canonRec) := by
    rw [← sortFileIssues_map_canon, ← sortFileIssues_map_canon, List.map_map,
      List.map_map]
    simp only [Function.comp_def]
    rw [insertionSort_key_lex _
        (rank_invariant_chunk file_path base_data current_data req₁ ko₁),
      insertionSort_key_lex _
        (rank_invariant_chunk file_path base_data current_data req₂ ko₂)]
    apply eq_of_perm_of_sorted_lex
    · exact ((List.perm_insertionSort LexLe _).trans
        (canon_chunk_perm file_path base_data current_data hr₁ hr₂ hrm hk₁ hk₂
          hkm)).trans (List.perm_insertionSort LexLe _).symm
    · exact sorted_insertionSort_lex _
    · exact sorted_insertionSort_lex _
    · intro a ha b hb
      exact local_antisym_chunk file_path base_data current_data req₁ ko₁ a
        ((List.perm_insertionSort LexLe _).subset ha) b
        ((List.perm_insertionSort LexLe _).subset hb)
  calc
    (sortFileIssues ((checkXcstringsFileIssues file_path base_data current_data req₁
        ko₁).map issueRec)).flatMap (format_entry_lines req₁)
        = ((sortFileIssues ((checkXcstringsFileIssues file_path base_data current_data
            req₁ ko₁).map issueRec)).map canonRec).flatMap (format_entry_lines req₁) :=
      flatMap_fel_canon _ _
    _ = ((sortFileIssues ((checkXcstringsFileIssues file_path base_data current_data
          req₂ ko₂).map issueRec)).map canonRec).flatMap (format_entry_lines req₂) := by
      rw [hkey, hfel]
    _ = (sortFileIssues ((checkXcstringsFileIssues file_path base_data current_data
          req₂ ko₂).map issueRec)).flatMap (format_entry_lines req₂) :=
      (flatMap_fel_canon _ _).symm

theorem issuesForFile_append (l₁ l₂ : List TranslationIssue) (fp : String) :
    issuesForFile (l₁ ++ l₂) fp = issuesForFile l₁ fp ++ issuesForFile l₂ fp := by
  unfold issuesForFile
  rw [List.filter_append, List.map_append]

theorem issuesForFile_flatMap {α : Type} (c : α → List TranslationIssue)
    (files : List α) (fp : String) :
    issuesForFile (files.flatMap c) fp =
      files.flatMap (fun f => issuesForFile (c f) fp) := by
  induction files with
  | nil => rfl
  | cons f rest ih =>
    rw [List.flatMap_cons, issuesForFile_append, ih, List.flatMap_cons]

theorem path_of_mem_chunk {file_path : String} {base_data current_data : JDict}
    {required_locales changed_keys : List String} {i : TranslationIssue}
    (h : i ∈ checkXcstringsFileIssues file_path base_data current_data
      required_locales changed_keys) : i.1 = file_path := by
  unfold checkXcstringsFileIssues at h
  by_cases hE : changed_keys.isEmpty = true
  · rw [if_pos hE] at h
    exact absurd h (List.not_mem_nil i)
  · rw [if_neg hE] at h
    rcases List.mem_append.mp h with h | h
    · rw [mem_missing_check] at h
      obtain ⟨k, _, _, _, _, rfl⟩ := h
      rfl
    · rw [mem_review_check] at h
      obtain ⟨k, _, _, _, _, rfl⟩ := h
      rfl

theorem issuesForFile_chunk_self (file_path : String) (base_data current_data : JDict)
    (required_locales changed_keys : List String) :
    issuesForFile (checkXcstringsFileIssues file_path base_data current_data
        required_locales changed_keys) file_path =
      (checkXcstringsFileIssues file_path base_data current_data required_locales
        changed_keys).map issueRec := by
  unfold issuesForFile
  rw [List.filter_eq_self.mpr
    (fun i hi => decide_eq_true (path_of_mem_chunk hi))]
  rfl

theorem issuesForFile_chunk_ne {file_path fp : String}
    (base_data current_data : JDict) (required_locales changed_keys : List String)
    (hne : file_path ≠ fp) :
    issuesForFile (checkXcstringsFileIssues file_path base_data current_data
      required_locales changed_keys) fp = [] := by
  unfold issuesForFile
  rw [List.filter_eq_nil_iff.mpr
    (fun i hi => by simp [path_of_mem_chunk hi, hne])]
  rfl

theorem flatMap_single {α β : Type} {files : List α} {g : α → List β} {f : α}
    (hnd : files.Nodup) (hf : f ∈ files) (hz : ∀ x ∈ files, x ≠ f → g x = []) :
    files.flatMap g = g f := by
  induction files with
  | nil => exact absurd hf (List.not_mem_nil f)
  | cons a rest ih =>
    rw [List.flatMap_cons]
    by_cases ha : a = f
    · subst ha
      have hz2 : rest.flatMap g = [] :=
        List.flatMap_eq_nil_iff.mpr (fun x hx =>
          hz x (List.mem_cons_of_mem a hx)
            (fun he => (List.nodup_cons.mp hnd).1 (he ▸ hx)))
      rw [hz2, List.append_nil]
    · rw [hz a (List.mem_cons_self a rest) ha, List.nil_append]
      have hf2 : f ∈ rest := by
        rcases List.mem_cons.mp hf with h | h
        · exact absurd h.symm ha
        · exact h
      exact ih (List.nodup_cons.mp hnd).2 hf2
        (fun x hx hxe => hz x (List.mem_cons_of_mem a hx) hxe)

theorem path_inj_of_nodup {files : List (String × JDict × JDict)}
    (hnd : (files.map (·.1)).Nodup) :
    ∀ f ∈ files, ∀ g ∈ files, f.1 = g.1 → f = g := by
  intro f hf g hg he
  by_contra hne
  have hpw : List.Pairwise (fun a b : String × JDict × JDict => a.1 ≠ b.1) files :=
    List.pairwise_map.mp hnd
  have hsym : Symmetric (fun a b : String × JDict × JDict => a.1 ≠ b.1) := by
    intro a b hab he2
    exact hab he2.symm
  exact (hpw.forall hsym hf hg hne) he

theorem flatMap_congr_mem {α β : Type} {l : List α} {f g : α → List β}
    (h : ∀ x ∈ l, f x = g x) : l.flatMap f = l.flatMap g := by
  induction l with
  | nil => rfl
  | cons a t ih =>
    rw [List.flatMap_cons, List.flatMap_cons, h a (List.mem_cons_self a t),
      ih (fun x hx => h x (List.mem_cons_of_mem a hx))]

theorem perm_nil_iff {α : Type} {l₁ l₂ : List α} (hp : l₁.Perm l₂) :
    l₁ = [] ↔ l₂ = [] := by
  constructor
  · intro h
    subst h
    exact (hp.symm.eq_nil)
  · intro h
    subst h
    exact hp.eq_nil

/-- Claim C7 amended: for a fixed changed-file list (with distinct
paths), fixed snapshots and a fixed required-locale set, any two runs of
the catalog check — which may iterate the changed-key sets and the
required-locale set in different orders, as Python's randomized string
hashing permits — produce the same changed-key sets (these are a pure
function of the snapshots) and bit-identical formatted output; only the
raw issue-list order (and the enumeration order inside each issue's
locale set) may differ between runs. -/
theorem claim_C7_amended (files : List (String × JDict × JDict))
    (req₁ req₂ : List String) (ko₁ ko₂ : String → List String)
    (hpaths : (files.map (·.1)).Nodup)
    (hr₁ : req₁.Nodup) (hr₂ : req₂.Nodup) (hrm : ∀ x, x ∈ req₁ ↔ x ∈ req₂)
    (hko₁ : ∀ f ∈ files, (ko₁ f.1).Nodup ∧
      ∀ x, x ∈ ko₁ f.1 ↔ x ∈ get_changed_string_keys f.2.1 f.2.2)
    (hko₂ : ∀ f ∈ files, (ko₂ f.1).Nodup ∧
      ∀ x, x ∈ ko₂ f.1 ↔ x ∈ get_changed_string_keys f.2.1 f.2.2) :
    format_issues (check_xcstrings_files files req₁ ko₁) req₁ =
      format_issues (check_xcstrings_files files req₂ ko₂) req₂ := by
  have hkm : ∀ f ∈ files, ∀ x, x ∈ ko₁ f.1 ↔ x ∈ ko₂ f.1 :=
    fun f hf x => ((hko₁ f hf).2 x).trans ((hko₂ f hf).2 x).symm
  have hcp : ∀ f ∈ files,
      ((checkXcstringsFileIssues f.1 f.2.1 f.2.2 req₁ (ko₁ f.1)).map
        (fun i => canonRec (issueRec i))).Perm
      ((checkXcstringsFileIssues f.1 f.2.1 f.2.2 req₂ (ko₂ f.1)).map
        (fun i => canonRec (issueRec i))) :=
    fun f hf => canon_chunk_perm f.1 f.2.1 f.2.2 hr₁ hr₂ hrm (hko₁ f hf).1
      (hko₂ f hf).1 (hkm f hf)
  have hnil : ∀ f ∈ files,
      (checkXcstringsFileIssues f.1 f.2.1 f.2.2 req₁ (ko₁ f.1) = [] ↔
        checkXcstringsFileIssues f.1 f.2.1 f.2.2 req₂ (ko₂ f.1) = []) := by
    intro f hf
    have h := perm_nil_iff (hcp f hf)
    rw [List.map_eq_nil_iff, List.map_eq_nil_iff] at h
    exact h
  have hrun₁ : check_xcstrings_files files req₁ ko₁ =
      files.flatMap (fun f => checkXcstringsFileIssues f.1 f.2.1 f.2.2 req₁
        (ko₁ f.1)) := rfl
  have hrun₂ : check_xcstrings_files files req₂ ko₂ =
      files.flatMap (fun f => checkXcstringsFileIssues f.1 f.2.1 f.2.2 req₂
        (ko₂ f.1)) := rfl
  have hrunnil : check_xcstrings_files files req₁ ko₁ = [] ↔
      check_xcstrings_files files req₂ ko₂ = [] := by
    rw [hrun₁, hrun₂, List.flatMap_eq_nil_iff, List.flatMap_eq_nil_iff]
    constructor
    · intro h f hf
      exact (hnil f hf).mp (h f hf)
    · intro h f hf
      exact (hnil f hf).mpr (h f hf)
  have hEE : (check_xcstrings_files files req₁ ko₁).isEmpty =
      (check_xcstrings_files files req₂ ko₂).isEmpty := by
    rcases hE : (check_xcstrings_files files req₂ ko₂).isEmpty with _ | _
    · rw [List.isEmpty_eq_false] at hE ⊢
      intro hc
      exact hE (hrunnil.mp hc)
    · rw [List.isEmpty_iff] at hE ⊢
      exact hrunnil.mpr hE
  have hpm : ∀ p, p ∈ (check_xcstrings_files files req₁ ko₁).map (·.1) ↔
      p ∈ (check_xcstrings_files files req₂ ko₂).map (·.1) := by
    intro p
    rw [hrun₁, hrun₂]
    simp only [List.mem_map, List.mem_flatMap]
    constructor
    · rintro ⟨i, ⟨f, hf, hi⟩, rfl⟩
      have hne : checkXcstringsFileIssues f.1 f.2.1 f.2.2 req₂ (ko₂ f.1) ≠ [] := by
        intro h0
        have h1 := (hnil f hf).mpr h0
        rw [h1] at hi
        exact List.not_mem_nil i hi
      obtain ⟨j, hj⟩ := List.exists_mem_of_ne_nil _ hne
      exact ⟨j, ⟨f, hf, hj⟩, by rw [path_of_mem_chunk hj, path_of_mem_chunk hi]⟩
    · rintro ⟨i, ⟨f, hf, hi⟩, rfl⟩
      have hne : checkXcstringsFileIssues f.1 f.2.1 f.2.2 req₁ (ko₁ f.1) ≠ [] := by
        intro h0
        have h1 := (hnil f hf).mp h0
        rw [h1] at hi
        exact List.not_mem_nil i hi
      obtain ⟨j, hj⟩ := List.exists_mem_of_ne_nil _ hne
      exact ⟨j, ⟨f, hf, hj⟩, by rw [path_of_mem_chunk hj, path_of_mem_chunk hi]⟩
  have hfilesnd : files.Nodup := List.Nodup.of_map _ hpaths
  unfold format_issues
  rw [hEE]
  rcases hE : (check_xcstrings_files files req₂ ko₂).isEmpty with _ | _
  · simp only [Bool.false_eq_true, if_false]
    have filesEq : sortStrings (dedupFirst ((check_xcstrings_files files req₁
        ko₁).map (·.1))) =
        sortStrings (dedupFirst ((check_xcstrings_files files req₂ ko₂).map (·.1))) :=
      sortStrings_eq_of_same_mem (nodup_dedupFirst _) (nodup_dedupFirst _)
        (fun x => by rw [mem_dedupFirst, mem_dedupFirst]; exact hpm x)
    rw [filesEq]
    apply congrArg (String.intercalate "\n")
    apply congrArg (List.cons _)
    apply flatMap_congr_mem
    intro fp hfp
    have hfp2 : fp ∈ (check_xcstrings_files files req₂ ko₂).map (·.1) := by
      rw [← mem_dedupFirst (l := (check_xcstrings_files files req₂ ko₂).map (·.1))]
      exact mem_sortStrings.mp hfp
    obtain ⟨i, hi, hip⟩ := List.mem_map.mp hfp2
    rw [hrun₂] at hi
    obtain ⟨f, hf, hic⟩ := List.mem_flatMap.mp hi
    have hfpf : f.1 = fp := by rw [← hip, path_of_mem_chunk hic]
    have hz₁ : ∀ x ∈ files, x ≠ f →
        issuesForFile (checkXcstringsFileIssues x.1 x.2.1 x.2.2 req₁ (ko₁ x.1)) fp
          = [] := by
      intro x hx hxf
      refine issuesForFile_chunk_ne _ _ _ _ (fun he => hxf ?_)
      exact path_inj_of_nodup hpaths x hx f hf (he.trans hfpf.symm)
    have hz₂ : ∀ x ∈ files, x ≠ f →
        issuesForFile (checkXcstringsFileIssues x.1 x.2.1 x.2.2 req₂ (ko₂ x.1)) fp
          = [] := by
      intro x hx hxf
      refine issuesForFile_chunk_ne _ _ _ _ (fun he => hxf ?_)
      exact path_inj_of_nodup hpaths x hx f hf (he.trans hfpf.symm)
    have e₁ : issuesForFile (check_xcstrings_files files req₁ ko₁) fp =
        (checkXcstringsFileIssues f.1 f.2.1 f.2.2 req₁ (ko₁ f.1)).map issueRec := by
      rw [hrun₁, issuesForFile_flatMap]
      rw [flatMap_single hfilesnd hf hz₁, ← hfpf]
      exact issuesForFile_chunk_self f.1 f.2.1 f.2.2 req₁ (ko₁ f.1)
    have e₂ : issuesForFile (check_xcstrings_files files req₂ ko₂) fp =
        (checkXcstringsFileIssues f.1 f.2.1 f.2.2 req₂ (ko₂ f.1)).map issueRec := by
      rw [hrun₂, issuesForFile_flatMap]
      rw [flatMap_single hfilesnd hf hz₂, ← hfpf]
      exact issuesForFile_chunk_self f.1 f.2.1 f.2.2 req₂ (ko₂ f.1)
    rw [e₁, e₂]
    apply congrArg (List.cons _)
    exact block_eq f.1 f.2.1 f.2.2 hr₁ hr₂ hrm (hko₁ f hf).1 (hko₂ f hf).1 (hkm f hf)
  · rfl

/-- Counterexample to claim C7 as stated: for the same snapshots and
required-locale set, two runs that enumerate the changed-key set
`{"a", "b"}` in the two possible orders (as Python's per-process hash
randomization permits) produce issue lists with the same content but in
different order — so the issue list is not run-invariant — while the
formatted output is bit-identical. -/
theorem claim_C7_counterexample :
    get_changed_string_keys []
        [("strings", JValue.jobj [("a", .jobj []), ("b", .jobj [])])] = ["a", "b"] ∧
    check_xcstrings_files
        [("f", [], [("strings", JValue.jobj [("a", .jobj []), ("b", .jobj [])])])]
        ["de"] (fun _ => ["a", "b"]) ≠
      check_xcstrings_files
        [("f", [], [("strings", JValue.jobj [("a", .jobj []), ("b", .jobj [])])])]
        ["de"] (fun _ => ["b", "a"]) ∧
    format_issues (check_xcstrings_files
        [("f", [], [("strings", JValue.jobj [("a", .jobj []), ("b", .jobj [])])])]
        ["de"] (fun _ => ["a", "b"])) ["de"] =
      format_issues (check_xcstrings_files
        [("f", [], [("strings", JValue.jobj [("a", .jobj []), ("b", .jobj [])])])]
        ["de"] (fun _ => ["b", "a"])) ["de"] := by
  refine ⟨by decide, by decide, by decide⟩

/-- Witness for the amended claim C7 at a concrete input, the two
enumeration orders of the changed-key set discharged explicitly. -/
theorem claim_C7_witness :
    format_issues (check_xcstrings_files
        [("f", [], [("strings", JValue.jobj [("a", .jobj []), ("b", .jobj [])])])]
        ["de"] (fun _ => ["a", "b"])) ["de"] =
      format_issues (check_xcstrings_files
        [("f", [], [("strings", JValue.jobj [("a", .jobj []), ("b", .jobj [])])])]
        ["de"] (fun _ => ["b", "a"])) ["de"] := by
  have hgc : get_changed_string_keys []
      [("strings", JValue.jobj [("a", .jobj []), ("b", .jobj [])])] = ["a", "b"] := by
    decide
  refine claim_C7_amended
    [("f", [], [("strings", JValue.jobj [("a", .jobj []), ("b", .jobj [])])])]
    ["de"] ["de"] (fun _ => ["a", "b"]) (fun _ => ["b", "a"])
    (by decide) (by decide) (by decide) (fun x => Iff.rfl) ?_ ?_
  · intro f hf
    rcases List.mem_singleton.mp hf with rfl
    exact ⟨by decide, fun x => by rw [hgc]⟩
  · intro f hf
    rcases List.mem_singleton.mp hf with rfl
    refine ⟨by decide, fun x => ?_⟩
    rw [hgc]
    constructor
    · intro h
      rcases List.mem_cons.mp h with rfl | h
      · decide
      · rcases List.mem_cons.mp h with rfl | h
        · decide
        · exact absurd h (List.not_mem_nil _)
    · intro h
      rcases List.mem_cons.mp h with rfl | h
      · decide
      · rcases List.mem_cons.mp h with rfl | h
        · decide
        · exact absurd h (List.not_mem_nil _)
